import Mathlib

/-! aac2flv: ADTS demuxer and FLV muxer.

A shallow embedding of `main.go`.  Bytes are values of `Fin 256`; wider machine
integers (`uint16`, `uint32`, `int`) are natural numbers or integers with the
wrap-around written out as an explicit `%`.  The `bufio.Writer` of the muxer is
the list of bytes written so far; the `bufio.Reader` of the demuxer is the list
of unread bytes together with a script that fixes how each `Read` call, and
each read made to fill the buffer for a `Peek`, behaves.
-/

namespace Aac2Flv

/-! ## Bytes and integer conversions -/

/-- A Go `byte`. -/
abbrev Byte := Fin 256

/-- Go conversion `byte(x)` of a non-negative integer: keep the low 8 bits. -/
def byte (n : Nat) : Byte := ⟨n % 256, Nat.mod_lt n (by decide)⟩

/-- Go conversion `byte(x)` of a signed `int`: two's-complement truncation. -/
def byteOfInt (i : Int) : Byte := byte (i % 256).toNat

/-- Conversion `uint32(x)` of a non-negative integer. -/
def uint32 (n : Nat) : Nat := n % 2 ^ 32

/-- Conversion `uint16(x)` of a non-negative integer. -/
def uint16 (n : Nat) : Nat := n % 2 ^ 16

/-- The four bytes stored by `binary.BigEndian.PutUint32(b, v)`. -/
def PutUint32 (v : Nat) : List Byte :=
  [byte (v >>> 24), byte (v >>> 16), byte (v >>> 8), byte v]

/-! ## FLV muxer -/

/-- The muxer: `w` is everything written to the `bufio.Writer` so far. -/
structure FLV where
  w : List Byte
  deriving DecidableEq, Repr

/-- Constant `Audio WhatMedia = 1 << iota` with `iota = 0`. -/
def Audio : Int := 1 <<< 0

/-- Constant `Video WhatMedia = 1 << iota` with `iota = 1`. -/
def Video : Int := 1 <<< 1

/-- Constant `AudioVideo WhatMedia = 1 << iota` with `iota = 2`. -/
def AudioVideo : Int := 1 <<< 2

/-- Method `FLV.WriteHeader`: signature, version, flags byte, header size 9 and
the first previous-tag-size 0. -/
def WriteHeader (flv : FLV) (has : Int) : FLV :=
  let w := flv.w ++ [0x46, 0x4C, 0x56]
  let w := w ++ [0x01]
  let w :=
    if Int.lor has Audio = 1 then w ++ [0x04]
    else if Int.lor has Video = 1 then w ++ [0x01]
    else w ++ [0x05]
  let w := w ++ PutUint32 9
  let w := w ++ PutUint32 0
  { w := w }

/-- Constant `AudioTag TagType = 0x08`. -/
def AudioTag : Int := 0x08

/-- Constant `VideoTag TagType = 0x09`. -/
def VideoTag : Int := 0x09

/-- Constant `ScriptTag TagType = 0x12`. -/
def ScriptTag : Int := 0x12

/-- Method `FLV.writeTagHeader`.  `dataSize` is an `int` that is always a slice
length, hence a natural number; `ts` is a `uint32`. -/
def writeTagHeader (flv : FLV) (t : Int) (dataSize : Nat) (ts : Nat) : FLV :=
  let w := flv.w ++ [byteOfInt t]
  let w := w ++ [byte ((dataSize >>> 16) &&& 0xff)]
  let w := w ++ [byte ((dataSize >>> 8) &&& 0xff)]
  let w := w ++ [byte (dataSize &&& 0xff)]
  let tsLow24 := ts &&& 0xffffff
  let tsHigh8 := (ts >>> 24) &&& 0xff
  let w := w ++ [byte ((tsLow24 >>> 16) &&& 0xff)]
  let w := w ++ [byte ((tsLow24 >>> 8) &&& 0xff)]
  let w := w ++ [byte (tsLow24 &&& 0xff)]
  let w := w ++ [byte tsHigh8]
  let u24 : List Byte := [0, 0, 0]
  { w := w ++ u24 }

/-- Method `FLV.WriteTag`: tag header, data, then `11 + uint32(len(d))` as a
big-endian `uint32`. -/
def WriteTag (flv : FLV) (t : Int) (d : List Byte) (ts : Nat) : FLV :=
  let flv := writeTagHeader flv t d.length ts
  let w := flv.w ++ d
  { w := w ++ PutUint32 (uint32 (11 + uint32 d.length)) }

/-! ## ADTS demuxer -/

/-- Errors a read can return: `io.EOF`, or any other (genuine I/O) error. -/
inductive Error where
  | EOF
  | IOFailure
  deriving DecidableEq, Repr

/-- How one `Read` call on the `bufio.Reader` behaves: it delivers some bytes
(the requested size of the chunk is clamped to what is possible, and is at
least one byte), or it fails with an I/O error. -/
inductive ReadEvent where
  | deliver (n : Nat)
  | fail
  deriving DecidableEq, Repr

/-- The demuxer: `r` is the unread input, `script` fixes the behaviour of the
coming `Read` calls and buffer fills (once it is used up every read is as large
as possible), `ts` is the `uint32` timestamp accumulator. -/
structure AACReader where
  r : List Byte
  script : List ReadEvent
  ts : Nat
  deriving DecidableEq, Repr

/-- Method `bufio.Reader.Read` on a buffer of length `k > 0`: at end of input it
returns `io.EOF`; otherwise it returns between 1 and `k` bytes, possibly fewer
than `k`. -/
def Read (aac : AACReader) (k : Nat) : Except Error (List Byte) × AACReader :=
  match aac.script with
  | ReadEvent.fail :: rest => (Except.error Error.IOFailure, { aac with script := rest })
  | ReadEvent.deliver c :: rest =>
    if aac.r = [] then (Except.error Error.EOF, { aac with script := rest })
    else
      let n := max 1 (min c (min k aac.r.length))
      (Except.ok (aac.r.take n), { aac with r := aac.r.drop n, script := rest })
  | [] =>
    if aac.r = [] then (Except.error Error.EOF, aac)
    else
      let n := min k aac.r.length
      (Except.ok (aac.r.take n), { aac with r := aac.r.drop n })

/-- The buffer fill of `bufio.Reader.Peek(n)`: reads of the underlying file are
made until `n` bytes of the unread input `r` are buffered (`avail` counts
them) or a read fails.  The result is the slice `Peek` returns (the first `n`
unread bytes, or the fewer that were buffered when a read failed), the error it
returns with a short slice, and the script that is left: the events the fill
used are gone, a failure it met included, since `Peek` clears the error it
returns. -/
def peekFill (r : List Byte) (n : Nat) :
    Nat → List ReadEvent → (List Byte × Option Error) × List ReadEvent
  | avail, [] =>
    if n ≤ avail then ((r.take n, none), [])
    else if n ≤ r.length then ((r.take n, none), [])
    else ((r, some Error.EOF), [])
  | avail, ReadEvent.fail :: rest =>
    if n ≤ avail then ((r.take n, none), ReadEvent.fail :: rest)
    else ((r.take avail, some Error.IOFailure), rest)
  | avail, ReadEvent.deliver c :: rest =>
    if n ≤ avail then ((r.take n, none), ReadEvent.deliver c :: rest)
    else if r.length ≤ avail then ((r.take avail, some Error.EOF), rest)
    else peekFill r n (avail + max 1 (min c (r.length - avail))) rest

/-- Method `bufio.Reader.Peek(n)` for `n` up to the buffer size: the slice and
error of the buffer fill, and the reader afterwards.  The unread input is not
advanced.  Which bytes sit in the buffer is not tracked: the reads after a peek
are again governed by the script, which allows every behaviour of the buffered
reader. -/
def Peek (aac : AACReader) (n : Nat) : (List Byte × Option Error) × AACReader :=
  ((peekFill aac.r n 0 aac.script).1, { aac with script := (peekFill aac.r n 0 aac.script).2 })

/-- How a call ends: it returns a value and leaves a reader state, it panics
(index out of range) with the reader in some state, or its loop ran out of
fuel. -/
inductive Run (α : Type) where
  | ret (a : α) (aac : AACReader)
  | panic (aac : AACReader)
  | stuck
  deriving DecidableEq, Repr

/-- How a read-until-complete loop ends. -/
inductive LoopResult where
  | done (data : List Byte) (aac : AACReader)
  | failed (e : Error) (data : List Byte) (aac : AACReader)
  | stuck
  deriving DecidableEq, Repr

/-- The loop `for remain > 0 { buf := make([]byte, remain); n, err := r.Read(buf);
if err != nil { return ... }; data = append(data, buf[:n]...); remain -= n }`,
shared by `parseAdtsHeader` and `RawDataOfFrame`. -/
def readLoop : Nat → Nat → List Byte → AACReader → LoopResult
  | 0, remain, data, aac => if remain > 0 then LoopResult.stuck else LoopResult.done data aac
  | fuel + 1, remain, data, aac =>
    if remain > 0 then
      match Read aac remain with
      | (Except.error e, aac1) => LoopResult.failed e data aac1
      | (Except.ok buf, aac1) => readLoop fuel (remain - buf.length) (data ++ buf) aac1
    else LoopResult.done data aac

/-- Constant `AAC = 10` (sound format). -/
def AAC : Nat := 10

/-- Constant `SoundRate44100Hz = 3`. -/
def SoundRate44100Hz : Nat := 3

/-- Constant `SoundSize16BitSamples = 1`. -/
def SoundSize16BitSamples : Nat := 1

/-- Constant `SoundTypeStereo = 1`. -/
def SoundTypeStereo : Nat := 1

/-- Method `AACReader.audioTagHeader`: the FLV sound-format byte. -/
def audioTagHeader : Byte :=
  byte (((byte ((AAC <<< 4) &&& 0xf0)).val |||
    (byte ((SoundRate44100Hz <<< 2) &&& 0x0c)).val |||
    (byte ((SoundSize16BitSamples <<< 1) &&& 0x02)).val) |||
    (byte (SoundTypeStereo &&& 0x01)).val)

/-- Method `AACReader.AudioSpecificConfig`: `adts, _ := aac.r.Peek(7)` drops the
error of the peek; the panic is the index out of range on a peeked slice that
is too short. -/
def AudioSpecificConfig (aac : AACReader) : Run (List Byte) :=
  match Peek aac 7 with
  | ((adts, _), aac1) =>
  let asc : List Byte := []
  let asc := asc ++ [audioTagHeader]
  let asc := asc ++ [0x00]
  match adts[2]?, adts[3]? with
  | some a2, some a3 =>
    let part1 := uint16 ((a2.val >>> 6) &&& 0x03)
    let part1 := uint16 (part1 <<< 11)
    let part1 := part1 &&& 0xf800
    let part2 := uint16 ((a2.val >>> 2) &&& 0x0f)
    let part2 := uint16 (part2 <<< 7)
    let part2 := part2 &&& 0x0780
    let part3 := uint16 (a2.val &&& 0x01) ||| uint16 ((a3.val >>> 6) &&& 0x03)
    let part3 := uint16 (part3 <<< 3)
    let part3 := part3 &&& 0x0078
    let u16 := part1 ||| part2 ||| part3
    let asc := asc ++ [byte ((u16 >>> 8) &&& 0xff)]
    let asc := asc ++ [byte (u16 &&& 0xff)]
    Run.ret asc aac1
  | _, _ => Run.panic aac1

/-- The table `sampleRateArray` of `parseAdtsHeader`. -/
def sampleRateArray : List Nat :=
  [96000, 88200, 64000, 48000, 44100, 32000, 24000, 22050, 16000, 12000, 11025, 8000, 7350]

/-- Method `AACReader.parseAdtsHeader`, returning the pair `(int, error)`. -/
def parseAdtsHeader (aac : AACReader) : Run (Nat × Option Error) :=
  match readLoop 7 7 [] aac with
  | LoopResult.stuck => Run.stuck
  | LoopResult.failed e _ aac1 => Run.ret (0, some e) aac1
  | LoopResult.done adts aac1 =>
    match adts[2]?, adts[3]?, adts[4]?, adts[5]?, adts[6]? with
    | some a2, some a3, some a4, some a5, some a6 =>
      let frameLength := uint16 (a3.val &&& 0x03)
      let frameLength := uint16 (frameLength <<< 8)
      let frameLength := frameLength ||| uint16 a4.val
      let frameLength := uint16 (frameLength <<< 3)
      let frameLength := frameLength ||| uint16 ((a5.val >>> 5) &&& 0x07)
      let numOfRawDataBlocksInFrame := uint32 (a6.val &&& 0x03)
      let samplingFrequencyIndex := (a2.val >>> 2) &&& 0x0f
      match sampleRateArray[samplingFrequencyIndex]? with
      | none => Run.panic aac1
      | some sampleRate =>
        let numOfRawDataBlocksInFrame := uint32 (numOfRawDataBlocksInFrame + 1)
        let ts := uint32 (aac1.ts +
          uint32 (uint32 (numOfRawDataBlocksInFrame * 1024) * 1000) / uint32 sampleRate)
        Run.ret (uint16 (frameLength + 2 ^ 16 - 7), none) { aac1 with ts := ts }
    | _, _, _, _, _ => Run.panic aac1

/-- Method `AACReader.GetTimestampOfFrame`. -/
def GetTimestampOfFrame (aac : AACReader) : Nat := aac.ts

/-- Method `AACReader.RawDataOfFrame`, returning the pair `([]byte, error)`. -/
def RawDataOfFrame (aac : AACReader) : Run (List Byte × Option Error) :=
  match parseAdtsHeader aac with
  | Run.stuck => Run.stuck
  | Run.panic aac1 => Run.panic aac1
  | Run.ret (_, some err) aac1 => Run.ret ([], some err) aac1
  | Run.ret (RawLength, none) aac1 =>
    let audioData : List Byte := []
    let audioData := audioData ++ [audioTagHeader]
    let audioData := audioData ++ [0x01]
    match readLoop RawLength RawLength [] aac1 with
    | LoopResult.stuck => Run.stuck
    | LoopResult.failed err rawData aac2 => Run.ret (rawData, some err) aac2
    | LoopResult.done rawData aac2 => Run.ret (audioData ++ rawData, none) aac2

/-! ## Driver -/

/-- One `flv.WriteTag(t, d, ts)` call made by the driver. -/
structure TagCall where
  t : Int
  d : List Byte
  ts : Nat
  deriving DecidableEq, Repr

/-- How `main` ends. -/
inductive Exit where
  | success
  | readError
  | panic
  | stuck
  deriving DecidableEq, Repr

/-- What `main` leaves behind: how it ended, the output file, and the `WriteTag`
calls of the conversion loop in order. -/
structure MainResult where
  exit : Exit
  flv : FLV
  calls : List TagCall
  deriving DecidableEq, Repr

/-- The conversion loop of `main` (lines 23-35). -/
def mainLoop : Nat → AACReader → FLV → List TagCall → MainResult
  | 0, _, flv, calls => { exit := Exit.stuck, flv := flv, calls := calls }
  | fuel + 1, aac, flv, calls =>
    let ts := GetTimestampOfFrame aac
    match RawDataOfFrame aac with
    | Run.stuck => { exit := Exit.stuck, flv := flv, calls := calls }
    | Run.panic _ => { exit := Exit.panic, flv := flv, calls := calls }
    | Run.ret (_, some err) _ =>
      if err = Error.EOF then { exit := Exit.success, flv := flv, calls := calls }
      else { exit := Exit.readError, flv := flv, calls := calls }
    | Run.ret (audioData, none) aac1 =>
      mainLoop fuel aac1 (WriteTag flv AudioTag audioData ts)
        (calls ++ [{ t := AudioTag, d := audioData, ts := ts }])

/-- Function `main` on an input file with contents `input` read according to
`script`.  Every turn of the loop that does not leave it consumes at least the
7 header bytes, so `input.length + 1` turns are enough. -/
def main (input : List Byte) (script : List ReadEvent) : MainResult :=
  let aac : AACReader := { r := input, script := script, ts := 0 }
  let flv : FLV := { w := [] }
  let flv := WriteHeader flv Audio
  match AudioSpecificConfig aac with
  | Run.ret asc aac1 =>
    let flv := WriteTag flv AudioTag asc 0
    mainLoop (input.length + 1) aac1 flv []
  | _ => { exit := Exit.panic, flv := flv, calls := [] }

/-! ## Big-endian numerals used to state the layout -/

/-- The `k` low base-256 digits of `n`, most significant first. -/
def bigEndian : Nat → Nat → List Byte
  | 0, _ => []
  | k + 1, n => bigEndian k (n / 256) ++ [byte n]

/-- The number denoted by a big-endian byte string. -/
def fromBigEndian (bs : List Byte) : Nat :=
  bs.foldl (fun acc b => acc * 256 + b.val) 0

/-! ## ADTS headers, frames and streams used to state the properties -/

/-- The seven bytes of an ADTS header. -/
structure AdtsHeader where
  b0 : Byte
  b1 : Byte
  b2 : Byte
  b3 : Byte
  b4 : Byte
  b5 : Byte
  b6 : Byte
  deriving DecidableEq, Repr

namespace AdtsHeader

/-- The header as it lies in the stream. -/
def bytes (h : AdtsHeader) : List Byte := [h.b0, h.b1, h.b2, h.b3, h.b4, h.b5, h.b6]

/-- The 2-bit profile field: bits 7..6 of byte 2. -/
def profile (h : AdtsHeader) : Nat := h.b2.val / 64

/-- The 4-bit sampling frequency index: bits 5..2 of byte 2. -/
def samplingFrequencyIndex (h : AdtsHeader) : Nat := h.b2.val / 4 % 16

/-- The 3-bit channel configuration: bit 0 of byte 2, then bits 7..6 of byte 3. -/
def channelConfiguration (h : AdtsHeader) : Nat := h.b2.val % 2 * 4 + h.b3.val / 64

/-- The 13-bit frame length: bits 1..0 of byte 3, byte 4, bits 7..5 of byte 5. -/
def frameLength (h : AdtsHeader) : Nat := h.b3.val % 4 * 2048 + h.b4.val * 8 + h.b5.val / 32

/-- The number of raw data blocks: bits 1..0 of byte 6, plus one. -/
def blocks (h : AdtsHeader) : Nat := h.b6.val % 4 + 1

/-- The sample rate the table gives for the header (0 outside the table). -/
def sampleRate (h : AdtsHeader) : Nat := sampleRateArray.getD h.samplingFrequencyIndex 0

/-- The duration of the frame in milliseconds, rounded down. -/
def duration (h : AdtsHeader) : Nat := h.blocks * 1024 * 1000 / h.sampleRate

end AdtsHeader

/-- An ADTS frame: header and payload. -/
structure Frame where
  header : AdtsHeader
  payload : List Byte
  deriving DecidableEq, Repr

namespace Frame

/-- The frame as it lies in the stream. -/
def bytes (f : Frame) : List Byte := f.header.bytes ++ f.payload

/-- The header's frame length is the real length of the frame (so at least 7)
and the sampling frequency index is inside the table. -/
def WellFormed (f : Frame) : Prop :=
  f.header.frameLength = 7 + f.payload.length ∧ f.header.samplingFrequencyIndex ≤ 12

instance (f : Frame) : Decidable f.WellFormed := by
  unfold WellFormed; infer_instance

end Frame

/-- The concatenation of the frames. -/
def stream : List Frame → List Byte
  | [] => []
  | f :: fs => f.bytes ++ stream fs

/-- No `Read` call fails with an I/O error: every read at a point where input is
left delivers at least one byte. -/
def NoFail (script : List ReadEvent) : Prop := ReadEvent.fail ∉ script

instance (script : List ReadEvent) : Decidable (NoFail script) := by
  unfold NoFail; infer_instance

/-- `n` successive calls of `RawDataOfFrame`; the results in order (a panic ends
the list). -/
def rawDataCalls : Nat → AACReader → List (List Byte × Option Error)
  | 0, _ => []
  | n + 1, aac =>
    match RawDataOfFrame aac with
    | Run.ret res aac1 => res :: rawDataCalls n aac1
    | Run.panic _ => []
    | Run.stuck => []

/-- One `parseAdtsHeader` call of a run: the header at the front of the unread
input when the call is made, what follows it, and how the reads behave. -/
structure HeaderCall where
  header : AdtsHeader
  rest : List Byte
  script : List ReadEvent
  deriving DecidableEq, Repr

/-- The accumulator after a run of successful `parseAdtsHeader` calls that starts
with accumulator `ts`; between two calls only the accumulator is carried over. -/
def accumulate (ts : Nat) : List HeaderCall → Option Nat
  | [] => some ts
  | c :: cs =>
    match parseAdtsHeader ⟨c.header.bytes ++ c.rest, c.script, ts⟩ with
    | Run.ret (_, none) aac1 => accumulate aac1.ts cs
    | _ => none

/-- The values `GetTimestampOfFrame` returns after each call of such a run. -/
def timestamps (ts : Nat) : List HeaderCall → Option (List Nat)
  | [] => some []
  | c :: cs =>
    match parseAdtsHeader ⟨c.header.bytes ++ c.rest, c.script, ts⟩ with
    | Run.ret (_, none) aac1 =>
      (timestamps aac1.ts cs).map (fun l => GetTimestampOfFrame aac1 :: l)
    | _ => none

/-- The `WriteTag` calls the conversion loop makes for a list of frames when the
accumulator is `ts` at the start: each frame is tagged with the accumulator as
it is before the frame is read. -/
def expectedCalls (ts : Nat) : List Frame → List TagCall
  | [] => []
  | f :: fs =>
    { t := AudioTag, d := 0xAF :: 0x01 :: f.payload, ts := ts } ::
      expectedCalls (uint32 (ts + f.header.duration)) fs

/-- Division rounded to the nearest integer (halves up). -/
def roundDiv (a b : Nat) : Nat := (2 * a + b) / (2 * b)

/-- The 16-bit big-endian word in the last two bytes of a 4-byte
AudioSpecificConfig blob. -/
def ascWord (out : List Byte) : Option Nat :=
  match out with
  | [_, _, hi, lo] => some (hi.val * 256 + lo.val)
  | _ => none

/-- The word `AudioSpecificConfig` packs for a header, written with arithmetic:
the profile bits in the top field, the sampling frequency index in the next, and
the bitwise or of bit 0 of byte 2 with bits 7..6 of byte 3 in the third. -/
def packedWord (h : AdtsHeader) : Nat :=
  h.profile * 2048 + h.samplingFrequencyIndex * 128 + (h.b2.val % 2 ||| h.b3.val / 64) * 8

/-! ## Concrete inputs -/

/-- An AAC-LC header: profile bits 01, sampling frequency index 4 (44100 Hz),
channel configuration 2, frame length 9, one raw data block. -/
def lcHeader : AdtsHeader :=
  { b0 := 0xFF, b1 := 0xF1, b2 := 0x50, b3 := 0x80, b4 := 0x01, b5 := 0x20, b6 := 0xFC }

/-- A frame with header `lcHeader` and two payload bytes. -/
def frameA : Frame := { header := lcHeader, payload := [0x01, 0x02] }

/-- A frame of length 8 with one payload byte. -/
def frameB : Frame :=
  { header := { lcHeader with b5 := 0x00 }, payload := [0x09] }

/-- A header with channel configuration 4: bit 0 of byte 2 set, bits 7..6 of
byte 3 clear. -/
def fourChannelHeader : AdtsHeader := { lcHeader with b2 := 0x51, b3 := 0x00 }

/-- A header with sampling frequency index 0 (96000 Hz) and one raw data block. -/
def fastHeader : AdtsHeader := { lcHeader with b2 := 0x40, b6 := 0x00 }

/-! ## Definitions for the decoding and outcome properties -/

/-- The value a call returns, if it returns. -/
def Run.value {α : Type} : Run α → Option α
  | Run.ret a _ => some a
  | Run.panic _ => none
  | Run.stuck => none

/-- The outcome of a call with the read script of the reader it leaves
forgotten: what is returned, the unread input and the accumulator remain. -/
def Run.eraseScript {α : Type} : Run α → Run α
  | Run.ret a aac => Run.ret a { aac with script := [] }
  | Run.panic aac => Run.panic { aac with script := [] }
  | Run.stuck => Run.stuck

/-- Parse one FLV tag at the front of `bs`: type u8, size u24 big-endian,
timestamp (fourth timestamp byte `<< 24` | first three bytes big-endian), three
stream-id bytes, `size` data bytes and a u32 big-endian previous-tag-size that
must equal `11 + size`.  Returns the tag and the bytes after it. -/
def decodeTag (bs : List Byte) : Option (TagCall × List Byte) :=
  match bs with
  | t :: s0 :: s1 :: s2 :: l0 :: l1 :: l2 :: hi :: _ :: _ :: _ :: rest =>
    let size := fromBigEndian [s0, s1, s2]
    let ts := hi.val * 2 ^ 24 + fromBigEndian [l0, l1, l2]
    if size ≤ rest.length then
      match rest.drop size with
      | p0 :: p1 :: p2 :: p3 :: tail =>
        if fromBigEndian [p0, p1, p2, p3] = 11 + size then
          some ({ t := (t.val : Int), d := rest.take size, ts := ts }, tail)
        else none
      | _ => none
    else none
  | _ => none

/-- Parse a byte string as a sequence of FLV tags, all of it (at most `fuel`
tags). -/
def decodeTags : Nat → List Byte → Option (List TagCall)
  | _, [] => some []
  | 0, _ :: _ => none
  | fuel + 1, b :: bs =>
    match decodeTag (b :: bs) with
    | none => none
    | some (c, rest) => (decodeTags fuel rest).map (fun cs => c :: cs)

/-- The file after the successive `WriteTag` calls. -/
def writeTags (flv : FLV) (cs : List TagCall) : FLV :=
  cs.foldl (fun w c => WriteTag w c.t c.d c.ts) flv

/-- A header with sampling frequency index 13, outside the table. -/
def badIndexHeader : AdtsHeader := { lcHeader with b2 := 0x74 }

/-- A header with sampling frequency index 12 (7350 Hz) and four raw data
blocks. -/
def slowHeader : AdtsHeader := { lcHeader with b2 := 0x70, b6 := 0x03 }

/-- A header whose frame length field is 3, less than the header size. -/
def shortLengthHeader : AdtsHeader := { lcHeader with b4 := 0x00, b5 := 0x60 }

/-- What `RawDataOfFrame` does, up to the read script, on a stream that starts
with header `h` followed by `rest` when no read fails with an I/O error: a panic
for a sampling frequency index outside the table, otherwise the frame if `rest`
holds the whole payload, and `io.EOF` with the bytes of `rest` if it does not. -/
def rawDataOutcome (h : AdtsHeader) (rest : List Byte) (ts : Nat) :
    Run (List Byte × Option Error) :=
  if 13 ≤ h.samplingFrequencyIndex then Run.panic ⟨rest, [], ts⟩
  else if uint16 (h.frameLength + 2 ^ 16 - 7) ≤ rest.length then
    Run.ret (0xAF :: 0x01 :: rest.take (uint16 (h.frameLength + 2 ^ 16 - 7)), none)
      ⟨rest.drop (uint16 (h.frameLength + 2 ^ 16 - 7)), [], uint32 (ts + h.duration)⟩
  else Run.ret (rest, some Error.EOF) ⟨[], [], uint32 (ts + h.duration)⟩

/-! ## Arithmetic reading of the bit operations -/

theorem byte_val (n : Nat) : (byte n).val = n % 256 := rfl

theorem byte_eq_of_mod {a b : Nat} (h : a % 256 = b % 256) : byte a = byte b :=
  Fin.ext h

theorem and_ff (x : Nat) : x &&& 0xff = x % 256 :=
  Nat.and_pow_two_sub_one_eq_mod x 8

theorem and_ffffff (x : Nat) : x &&& 0xffffff = x % 16777216 :=
  Nat.and_pow_two_sub_one_eq_mod x 24

theorem byteOfInt_natCast (t : Nat) : byteOfInt (t : Int) = byte t := by
  unfold byteOfInt
  apply byte_eq_of_mod
  omega

theorem fromBigEndian_append (bs : List Byte) (b : Byte) :
    fromBigEndian (bs ++ [b]) = fromBigEndian bs * 256 + b.val := by
  simp [fromBigEndian, List.foldl_append]

theorem fromBigEndian_bigEndian (k : Nat) :
    ∀ n : Nat, n < 256 ^ k → fromBigEndian (bigEndian k n) = n := by
  induction k with
  | zero =>
    intro n hn
    simp at hn
    simp [bigEndian, fromBigEndian, hn]
  | succ k ih =>
    intro n hn
    have hdiv : n / 256 < 256 ^ k := by
      rw [Nat.div_lt_iff_lt_mul (by decide)]
      rw [pow_succ] at hn
      exact hn
    rw [bigEndian, fromBigEndian_append, ih _ hdiv, byte_val]
    omega

theorem bigEndian_length (k : Nat) : ∀ n : Nat, (bigEndian k n).length = k := by
  induction k with
  | zero => intro n; rfl
  | succ k ih => intro n; simp [bigEndian, ih]

theorem writeTag_bytes (flv : FLV) (t : Int) (d : List Byte) (ts : Nat)
    (hd : d.length < 2 ^ 24) :
    (WriteTag flv t d ts).w =
      flv.w ++ ([byteOfInt t] ++ bigEndian 3 d.length ++ bigEndian 3 (ts % 2 ^ 24) ++
        [byte (ts / 2 ^ 24)] ++ [0, 0, 0] ++ d ++ bigEndian 4 (11 + d.length)) := by
  have e1 : byte (d.length >>> 16 &&& 0xff) = byte (d.length / 256 / 256) := by
    rw [and_ff, Nat.shiftRight_eq_div_pow]; apply byte_eq_of_mod; omega
  have e2 : byte (d.length >>> 8 &&& 0xff) = byte (d.length / 256) := by
    rw [and_ff, Nat.shiftRight_eq_div_pow]; apply byte_eq_of_mod; omega
  have e3 : byte (d.length &&& 0xff) = byte d.length := by
    rw [and_ff]; apply byte_eq_of_mod; omega
  have e4 : byte ((ts &&& 0xffffff) >>> 16 &&& 0xff) = byte (ts % 2 ^ 24 / 256 / 256) := by
    rw [and_ff, and_ffffff, Nat.shiftRight_eq_div_pow]; apply byte_eq_of_mod; omega
  have e5 : byte ((ts &&& 0xffffff) >>> 8 &&& 0xff) = byte (ts % 2 ^ 24 / 256) := by
    rw [and_ff, and_ffffff, Nat.shiftRight_eq_div_pow]; apply byte_eq_of_mod; omega
  have e6 : byte ((ts &&& 0xffffff) &&& 0xff) = byte (ts % 2 ^ 24) := by
    rw [and_ff, and_ffffff]; apply byte_eq_of_mod; omega
  have e7 : byte (ts >>> 24 &&& 0xff) = byte (ts / 2 ^ 24) := by
    rw [and_ff, Nat.shiftRight_eq_div_pow]; apply byte_eq_of_mod; omega
  have hu : uint32 (11 + uint32 d.length) = 11 + d.length := by
    unfold uint32; omega
  have p1 : byte ((11 + d.length) >>> 24) = byte ((11 + d.length) / 256 / 256 / 256) := by
    rw [Nat.shiftRight_eq_div_pow]; apply byte_eq_of_mod; omega
  have p2 : byte ((11 + d.length) >>> 16) = byte ((11 + d.length) / 256 / 256) := by
    rw [Nat.shiftRight_eq_div_pow]; apply byte_eq_of_mod; omega
  have p3 : byte ((11 + d.length) >>> 8) = byte ((11 + d.length) / 256) := by
    rw [Nat.shiftRight_eq_div_pow]
  simp only [WriteTag, writeTagHeader, PutUint32, bigEndian, hu, e1, e2, e3, e4, e5, e6, e7,
    p1, p2, p3, List.append_assoc, List.nil_append, List.cons_append, List.singleton_append]

/-! ## The read loop -/

theorem NoFail_tail {e : ReadEvent} {script : List ReadEvent} (h : NoFail (e :: script)) :
    NoFail script := fun hmem => h (List.mem_cons_of_mem e hmem)

theorem Read_some (r : List Byte) (script : List ReadEvent) (ts k : Nat)
    (hk : 0 < k) (hr : r ≠ []) (hs : NoFail script) :
    ∃ n script1, 1 ≤ n ∧ n ≤ k ∧ n ≤ r.length ∧ NoFail script1 ∧
      Read ⟨r, script, ts⟩ k = (Except.ok (r.take n), ⟨r.drop n, script1, ts⟩) := by
  have hlen : 0 < r.length := List.length_pos.mpr hr
  cases script with
  | nil =>
    refine ⟨min k r.length, [], ?_, ?_, ?_, hs, ?_⟩
    · omega
    · omega
    · omega
    · simp [Read, hr]
  | cons e rest =>
    cases e with
    | fail => exact absurd (List.mem_cons_self _ _) hs
    | deliver c =>
      refine ⟨max 1 (min c (min k r.length)), rest, ?_, ?_, ?_, NoFail_tail hs, ?_⟩
      · omega
      · omega
      · omega
      · simp [Read, hr]

theorem Read_eof (script : List ReadEvent) (ts k : Nat) (hs : NoFail script) :
    ∃ script1, NoFail script1 ∧
      Read ⟨[], script, ts⟩ k = (Except.error Error.EOF, ⟨[], script1, ts⟩) := by
  cases script with
  | nil => exact ⟨[], hs, by simp [Read]⟩
  | cons e rest =>
    cases e with
    | fail => exact absurd (List.mem_cons_self _ _) hs
    | deliver c => exact ⟨rest, NoFail_tail hs, by simp [Read]⟩

theorem readLoop_full : ∀ (fuel remain : Nat) (acc data rest : List Byte)
    (script : List ReadEvent) (ts : Nat),
    remain ≤ fuel → data.length = remain → NoFail script →
    ∃ script1, NoFail script1 ∧
      readLoop fuel remain acc ⟨data ++ rest, script, ts⟩ =
        LoopResult.done (acc ++ data) ⟨rest, script1, ts⟩ := by
  intro fuel
  induction fuel with
  | zero =>
    intro remain acc data rest script ts hf hd hs
    have h0 : remain = 0 := by omega
    subst h0
    have hnil : data = [] := List.length_eq_zero.mp hd
    subst hnil
    exact ⟨script, hs, by simp [readLoop]⟩
  | succ fuel ih =>
    intro remain acc data rest script ts hf hd hs
    by_cases h0 : remain = 0
    · subst h0
      have hnil : data = [] := List.length_eq_zero.mp hd
      subst hnil
      exact ⟨script, hs, by simp [readLoop]⟩
    · have hpos : 0 < remain := Nat.pos_of_ne_zero h0
      have hne : data ++ rest ≠ [] := by
        intro h
        have h1 : data = [] := (List.append_eq_nil.mp h).1
        rw [h1] at hd
        exact h0 hd.symm
      obtain ⟨n, script1, hn1, hnk, _, hs1, hread⟩ :=
        Read_some (data ++ rest) script ts remain hpos hne hs
      have hnd : n ≤ data.length := by omega
      have htake : (data ++ rest).take n = data.take n := List.take_append_of_le_length hnd
      have hdrop : (data ++ rest).drop n = data.drop n ++ rest :=
        List.drop_append_of_le_length hnd
      have hlen : (data.take n).length = n := by simp [List.length_take]; omega
      obtain ⟨script2, hs2, hrec⟩ :=
        ih (remain - n) (acc ++ data.take n) (data.drop n) rest script1 ts (by omega)
          (by simp [List.length_drop]; omega) hs1
      refine ⟨script2, hs2, ?_⟩
      rw [readLoop, if_pos hpos, hread, htake, hdrop]
      simp only [hlen]
      rw [hrec, List.append_assoc, List.take_append_drop]

theorem readLoop_short : ∀ (fuel remain : Nat) (acc data : List Byte)
    (script : List ReadEvent) (ts : Nat),
    remain ≤ fuel → data.length < remain → NoFail script →
    ∃ script1, NoFail script1 ∧
      readLoop fuel remain acc ⟨data, script, ts⟩ =
        LoopResult.failed Error.EOF (acc ++ data) ⟨[], script1, ts⟩ := by
  intro fuel
  induction fuel with
  | zero =>
    intro remain acc data script ts hf hd hs
    omega
  | succ fuel ih =>
    intro remain acc data script ts hf hd hs
    have hpos : 0 < remain := by omega
    by_cases hnil : data = []
    · subst hnil
      obtain ⟨script1, hs1, hread⟩ := Read_eof script ts remain hs
      refine ⟨script1, hs1, ?_⟩
      rw [readLoop, if_pos hpos, hread]
      simp
    · obtain ⟨n, script1, hn1, hnk, hnl, hs1, hread⟩ :=
        Read_some data script ts remain hpos hnil hs
      have hlen : (data.take n).length = n := by simp [List.length_take]; omega
      obtain ⟨script2, hs2, hrec⟩ :=
        ih (remain - n) (acc ++ data.take n) (data.drop n) script1 ts (by omega)
          (by simp [List.length_drop]; omega) hs1
      refine ⟨script2, hs2, ?_⟩
      rw [readLoop, if_pos hpos, hread]
      simp only [hlen]
      rw [hrec, List.append_assoc, List.take_append_drop]

/-! ## Header decoding -/

theorem uint16_of_lt {n : Nat} (h : n < 65536) : uint16 n = n := Nat.mod_eq_of_lt h

theorem uint32_of_lt {n : Nat} (h : n < 4294967296) : uint32 n = n := Nat.mod_eq_of_lt h

theorem shl_or (a b i : Nat) (h : b < 2 ^ i) : (a <<< i) ||| b = a * 2 ^ i + b := by
  rw [Nat.shiftLeft_eq, Nat.mul_comm, ← Nat.mul_add_lt_is_or h]

theorem frameLength_code (a3 a4 a5 : Byte) :
    uint16 ((uint16 (uint16 (a3.val &&& 0x03) <<< 8) ||| uint16 a4.val) <<< 3) |||
      uint16 ((a5.val >>> 5) &&& 0x07) = a3.val % 4 * 2048 + a4.val * 8 + a5.val / 32 := by
  have h3 := a3.isLt
  have h4 := a4.isLt
  have h5 := a5.isLt
  have e1 : a3.val &&& 0x03 = a3.val % 4 := Nat.and_pow_two_sub_one_eq_mod _ 2
  have e5 : (a5.val >>> 5) &&& 0x07 = a5.val / 32 := by
    rw [Nat.shiftRight_eq_div_pow]
    have : a5.val / 2 ^ 5 &&& 0x07 = a5.val / 2 ^ 5 % 2 ^ 3 :=
      Nat.and_pow_two_sub_one_eq_mod _ 3
    rw [this]
    omega
  rw [e1, e5, uint16_of_lt (by omega : a3.val % 4 < 65536),
    Nat.shiftLeft_eq (a3.val % 4) 8,
    uint16_of_lt (by omega : a3.val % 4 * 2 ^ 8 < 65536),
    uint16_of_lt (by omega : a4.val < 65536),
    uint16_of_lt (by omega : a5.val / 32 < 65536)]
  have e2 : a3.val % 4 * 2 ^ 8 ||| a4.val = a3.val % 4 * 2 ^ 8 + a4.val := by
    rw [Nat.mul_comm, ← Nat.mul_add_lt_is_or (by omega : a4.val < 2 ^ 8)]
  rw [e2, Nat.shiftLeft_eq,
    uint16_of_lt (by omega : (a3.val % 4 * 2 ^ 8 + a4.val) * 2 ^ 3 < 65536)]
  have e3 : (a3.val % 4 * 2 ^ 8 + a4.val) * 2 ^ 3 ||| a5.val / 32 =
      (a3.val % 4 * 2 ^ 8 + a4.val) * 2 ^ 3 + a5.val / 32 := by
    rw [Nat.mul_comm, ← Nat.mul_add_lt_is_or (by omega : a5.val / 32 < 2 ^ 3)]
  rw [e3]
  omega

theorem samplingFrequencyIndex_code (a2 : Byte) :
    (a2.val >>> 2) &&& 0x0f = a2.val / 4 % 16 := by
  rw [Nat.shiftRight_eq_div_pow]
  exact Nat.and_pow_two_sub_one_eq_mod _ 4

theorem sampleRateArray_lookup (i : Nat) (hi : i ≤ 12) :
    sampleRateArray[i]? = some (sampleRateArray.getD i 0) ∧
      0 < sampleRateArray.getD i 0 ∧ sampleRateArray.getD i 0 ≤ 96000 ∧
      7350 ≤ sampleRateArray.getD i 0 := by
  interval_cases i <;> exact ⟨rfl, by decide, by decide, by decide⟩

theorem duration_code (a6 : Byte) (rate : Nat) (hr : rate ≤ 96000) :
    uint32 (uint32 (uint32 (uint32 (a6.val &&& 0x03) + 1) * 1024) * 1000) / uint32 rate =
      (a6.val % 4 + 1) * 1024 * 1000 / rate := by
  have h6 := a6.isLt
  have e1 : a6.val &&& 0x03 = a6.val % 4 := Nat.and_pow_two_sub_one_eq_mod _ 2
  rw [e1, uint32_of_lt (by omega : a6.val % 4 < 4294967296),
    uint32_of_lt (by omega : a6.val % 4 + 1 < 4294967296),
    uint32_of_lt (by omega : (a6.val % 4 + 1) * 1024 < 4294967296),
    uint32_of_lt (by omega : (a6.val % 4 + 1) * 1024 * 1000 < 4294967296),
    uint32_of_lt (by omega : rate < 4294967296)]

theorem parseAdtsHeader_ok (h : AdtsHeader) (rest : List Byte) (script : List ReadEvent)
    (ts : Nat) (hsfi : h.samplingFrequencyIndex ≤ 12) (hs : NoFail script) :
    ∃ script1, NoFail script1 ∧
      parseAdtsHeader ⟨h.bytes ++ rest, script, ts⟩ =
        Run.ret (uint16 (h.frameLength + 2 ^ 16 - 7), none)
          ⟨rest, script1, uint32 (ts + h.duration)⟩ := by
  obtain ⟨script1, hs1, hloop⟩ :=
    readLoop_full 7 7 [] h.bytes rest script ts (Nat.le_refl 7) rfl hs
  refine ⟨script1, hs1, ?_⟩
  obtain ⟨hget, _, hle, _⟩ := sampleRateArray_lookup h.samplingFrequencyIndex hsfi
  have hidx : (h.b2.val >>> 2) &&& 0x0f = h.samplingFrequencyIndex :=
    samplingFrequencyIndex_code h.b2
  unfold parseAdtsHeader
  rw [hloop]
  simp only [List.nil_append, AdtsHeader.bytes, List.getElem?_cons_succ,
    List.getElem?_cons_zero]
  rw [hidx, hget]
  simp only [frameLength_code, duration_code h.b6 _ hle]
  rfl

/-! ## Frames -/

theorem frameLength_lt (h : AdtsHeader) : h.frameLength < 8192 := by
  have h3 := h.b3.isLt
  have h4 := h.b4.isLt
  have h5 := h.b5.isLt
  unfold AdtsHeader.frameLength
  omega

theorem audioTagHeader_eq : audioTagHeader = 0xAF := by decide

theorem RawDataOfFrame_frame (f : Frame) (rest : List Byte) (script : List ReadEvent)
    (ts : Nat) (hwf : f.WellFormed) (hs : NoFail script) :
    ∃ script1, NoFail script1 ∧
      RawDataOfFrame ⟨f.bytes ++ rest, script, ts⟩ =
        Run.ret (0xAF :: 0x01 :: f.payload, none)
          ⟨rest, script1, uint32 (ts + f.header.duration)⟩ := by
  obtain ⟨hfl, hsfi⟩ := hwf
  obtain ⟨script1, hs1, hparse⟩ :=
    parseAdtsHeader_ok f.header (f.payload ++ rest) script ts hsfi hs
  have hlt := frameLength_lt f.header
  have hraw : uint16 (f.header.frameLength + 2 ^ 16 - 7) = f.payload.length := by
    unfold uint16
    omega
  obtain ⟨script2, hs2, hloop⟩ :=
    readLoop_full f.payload.length f.payload.length [] f.payload rest script1
      (uint32 (ts + f.header.duration)) (Nat.le_refl _) rfl hs1
  refine ⟨script2, hs2, ?_⟩
  unfold RawDataOfFrame
  rw [Frame.bytes, List.append_assoc, hparse, hraw]
  simp only [hloop, audioTagHeader_eq, List.nil_append, List.cons_append, List.singleton_append]

theorem RawDataOfFrame_short (data : List Byte) (script : List ReadEvent) (ts : Nat)
    (hlen : data.length < 7) (hs : NoFail script) :
    ∃ script1, NoFail script1 ∧
      RawDataOfFrame ⟨data, script, ts⟩ = Run.ret ([], some Error.EOF) ⟨[], script1, ts⟩ := by
  obtain ⟨script1, hs1, hloop⟩ := readLoop_short 7 7 [] data script ts (Nat.le_refl 7) hlen hs
  refine ⟨script1, hs1, ?_⟩
  unfold RawDataOfFrame parseAdtsHeader
  rw [hloop]

theorem rawDataCalls_stream : ∀ (fs : List Frame) (script : List ReadEvent) (ts : Nat),
    (∀ f ∈ fs, f.WellFormed) → NoFail script →
    rawDataCalls (fs.length + 1) ⟨stream fs, script, ts⟩ =
      fs.map (fun f => (0xAF :: 0x01 :: f.payload, none)) ++ [([], some Error.EOF)] := by
  intro fs
  induction fs with
  | nil =>
    intro script ts _ hs
    obtain ⟨script1, _, hraw⟩ := RawDataOfFrame_short [] script ts (by decide) hs
    simp [rawDataCalls, stream, hraw]
  | cons f fs ih =>
    intro script ts hwf hs
    obtain ⟨script1, hs1, hraw⟩ :=
      RawDataOfFrame_frame f (stream fs) script ts (hwf f (List.mem_cons_self _ _)) hs
    have hrest := ih script1 (uint32 (ts + f.header.duration))
      (fun g hg => hwf g (List.mem_cons_of_mem _ hg)) hs1
    rw [List.length_cons, rawDataCalls, stream, hraw]
    simp only [hrest, List.map_cons, List.cons_append]

/-! ## The configuration word -/

theorem or_low_le (a b : Nat) (ha : a < 2) (hb : b < 4) : a ||| b < 4 := by
  interval_cases a <;> interval_cases b <;> decide

theorem part1_code (a2 : Byte) :
    uint16 (uint16 ((a2.val >>> 6) &&& 0x03) <<< 11) &&& 0xf800 = a2.val / 64 * 2048 := by
  have h2 := a2.isLt
  have e : (a2.val >>> 6) &&& 0x03 = a2.val / 64 := by
    rw [Nat.shiftRight_eq_div_pow]
    have : a2.val / 2 ^ 6 &&& 0x03 = a2.val / 2 ^ 6 % 2 ^ 2 :=
      Nat.and_pow_two_sub_one_eq_mod _ 2
    rw [this]
    omega
  rw [e, uint16_of_lt (by omega : a2.val / 64 < 65536), Nat.shiftLeft_eq,
    uint16_of_lt (by omega : a2.val / 64 * 2 ^ 11 < 65536)]
  have hp : a2.val / 64 < 4 := by omega
  generalize a2.val / 64 = p at hp
  interval_cases p <;> rfl

theorem part2_code (a2 : Byte) :
    uint16 (uint16 ((a2.val >>> 2) &&& 0x0f) <<< 7) &&& 0x0780 = a2.val / 4 % 16 * 128 := by
  rw [samplingFrequencyIndex_code, uint16_of_lt (by omega : a2.val / 4 % 16 < 65536),
    Nat.shiftLeft_eq, uint16_of_lt (by omega : a2.val / 4 % 16 * 2 ^ 7 < 65536)]
  have hp : a2.val / 4 % 16 < 16 := by omega
  generalize a2.val / 4 % 16 = p at hp
  interval_cases p <;> rfl

theorem part3_code (a2 a3 : Byte) :
    uint16 ((uint16 (a2.val &&& 0x01) ||| uint16 ((a3.val >>> 6) &&& 0x03)) <<< 3) &&& 0x0078 =
      (a2.val % 2 ||| a3.val / 64) * 8 := by
  have h3 := a3.isLt
  have e1 : a2.val &&& 0x01 = a2.val % 2 := Nat.and_pow_two_sub_one_eq_mod _ 1
  have e2 : (a3.val >>> 6) &&& 0x03 = a3.val / 64 := by
    rw [Nat.shiftRight_eq_div_pow]
    have : a3.val / 2 ^ 6 &&& 0x03 = a3.val / 2 ^ 6 % 2 ^ 2 :=
      Nat.and_pow_two_sub_one_eq_mod _ 2
    rw [this]
    omega
  have hc : a2.val % 2 ||| a3.val / 64 < 4 := or_low_le _ _ (by omega) (by omega)
  rw [e1, e2, uint16_of_lt (by omega : a2.val % 2 < 65536),
    uint16_of_lt (by omega : a3.val / 64 < 65536), Nat.shiftLeft_eq,
    uint16_of_lt (by omega : (a2.val % 2 ||| a3.val / 64) * 2 ^ 3 < 65536)]
  generalize a2.val % 2 ||| a3.val / 64 = c at hc
  interval_cases c <;> rfl

theorem packedWord_or (h : AdtsHeader) :
    h.b2.val / 64 * 2048 ||| h.b2.val / 4 % 16 * 128 ||| (h.b2.val % 2 ||| h.b3.val / 64) * 8 =
      packedWord h := by
  have h2 := h.b2.isLt
  have h3 := h.b3.isLt
  have hc : h.b2.val % 2 ||| h.b3.val / 64 < 4 := or_low_le _ _ (by omega) (by omega)
  unfold packedWord AdtsHeader.profile AdtsHeader.samplingFrequencyIndex
  generalize h.b2.val % 2 ||| h.b3.val / 64 = c at hc
  have e1 : h.b2.val / 4 % 16 * 128 ||| c * 8 = h.b2.val / 4 % 16 * 128 + c * 8 := by
    have := Nat.mul_add_lt_is_or (by omega : c * 8 < 2 ^ 7) (h.b2.val / 4 % 16)
    rw [Nat.mul_comm] at this
    exact this.symm
  have e2 : h.b2.val / 64 * 2048 ||| (h.b2.val / 4 % 16 * 128 + c * 8) =
      h.b2.val / 64 * 2048 + (h.b2.val / 4 % 16 * 128 + c * 8) := by
    have := Nat.mul_add_lt_is_or
      (by omega : h.b2.val / 4 % 16 * 128 + c * 8 < 2 ^ 11) (h.b2.val / 64)
    rw [Nat.mul_comm] at this
    exact this.symm
  rw [Nat.lor_assoc, e1, e2]
  omega

theorem packedWord_lt (h : AdtsHeader) : packedWord h < 8192 := by
  have h2 := h.b2.isLt
  have h3 := h.b3.isLt
  have hc : h.b2.val % 2 ||| h.b3.val / 64 < 4 := or_low_le _ _ (by omega) (by omega)
  unfold packedWord AdtsHeader.profile AdtsHeader.samplingFrequencyIndex
  omega

theorem peekFill_full (r : List Byte) (n : Nat) (hn : n ≤ r.length) :
    ∀ (script : List ReadEvent) (avail : Nat), avail ≤ r.length → NoFail script →
      ∃ script1, NoFail script1 ∧ peekFill r n avail script = ((r.take n, none), script1) := by
  intro script
  induction script with
  | nil =>
    intro avail _ hs
    refine ⟨[], hs, ?_⟩
    by_cases h : n ≤ avail
    · simp only [peekFill, if_pos h]
    · simp only [peekFill, if_neg h, if_pos hn]
  | cons ev rest ih =>
    intro avail havail hs
    cases ev with
    | fail => exact absurd (List.mem_cons_self _ _) hs
    | deliver c =>
      by_cases h : n ≤ avail
      · exact ⟨ReadEvent.deliver c :: rest, hs, by simp only [peekFill, if_pos h]⟩
      · have hlt : ¬ r.length ≤ avail := by omega
        obtain ⟨script1, hs1, hrec⟩ :=
          ih (avail + max 1 (min c (r.length - avail))) (by omega) (NoFail_tail hs)
        exact ⟨script1, hs1, by simp only [peekFill, if_neg h, if_neg hlt, hrec]⟩

theorem peekFill_take (r : List Byte) (n : Nat) :
    ∀ (script : List ReadEvent) (avail : Nat), avail ≤ r.length →
      ∃ k, k ≤ n ∧ k ≤ r.length ∧ (peekFill r n avail script).1.1 = r.take k := by
  intro script
  induction script with
  | nil =>
    intro avail havail
    by_cases h : n ≤ avail
    · exact ⟨n, Nat.le_refl n, by omega, by simp only [peekFill, if_pos h]⟩
    · by_cases hn : n ≤ r.length
      · exact ⟨n, Nat.le_refl n, hn, by simp only [peekFill, if_neg h, if_pos hn]⟩
      · exact ⟨r.length, by omega, Nat.le_refl _,
          by simp only [peekFill, if_neg h, if_neg hn, List.take_length]⟩
  | cons ev rest ih =>
    intro avail havail
    cases ev with
    | fail =>
      by_cases h : n ≤ avail
      · exact ⟨n, Nat.le_refl n, by omega, by simp only [peekFill, if_pos h]⟩
      · exact ⟨avail, by omega, havail, by simp only [peekFill, if_neg h]⟩
    | deliver c =>
      by_cases h : n ≤ avail
      · exact ⟨n, Nat.le_refl n, by omega, by simp only [peekFill, if_pos h]⟩
      · by_cases hlt : r.length ≤ avail
        · exact ⟨avail, by omega, havail, by simp only [peekFill, if_neg h, if_pos hlt]⟩
        · obtain ⟨k, hk1, hk2, hrec⟩ :=
            ih (avail + max 1 (min c (r.length - avail))) (by omega)
          exact ⟨k, hk1, hk2, by simp only [peekFill, if_neg h, if_neg hlt, hrec]⟩

theorem config_bytes (h : AdtsHeader) :
    [audioTagHeader, 0x00,
        byte (((uint16 (uint16 ((h.b2.val >>> 6) &&& 0x03) <<< 11) &&& 0xf800 |||
          uint16 (uint16 ((h.b2.val >>> 2) &&& 0x0f) <<< 7) &&& 0x0780 |||
          uint16 ((uint16 (h.b2.val &&& 0x01) ||| uint16 ((h.b3.val >>> 6) &&& 0x03)) <<< 3) &&&
            0x0078) >>> 8) &&& 0xff),
        byte ((uint16 (uint16 ((h.b2.val >>> 6) &&& 0x03) <<< 11) &&& 0xf800 |||
          uint16 (uint16 ((h.b2.val >>> 2) &&& 0x0f) <<< 7) &&& 0x0780 |||
          uint16 ((uint16 (h.b2.val &&& 0x01) ||| uint16 ((h.b3.val >>> 6) &&& 0x03)) <<< 3) &&&
            0x0078) &&& 0xff)] =
      [0xAF, 0x00, byte (packedWord h / 256), byte (packedWord h)] := by
  have e8 : byte ((packedWord h >>> 8) &&& 0xff) = byte (packedWord h / 256) := by
    rw [and_ff, Nat.shiftRight_eq_div_pow]
    apply byte_eq_of_mod
    omega
  have e0 : byte (packedWord h &&& 0xff) = byte (packedWord h) := by
    rw [and_ff]
    apply byte_eq_of_mod
    omega
  simp only [part1_code, part2_code, part3_code, packedWord_or, e8, e0, audioTagHeader_eq]

theorem AudioSpecificConfig_header (h : AdtsHeader) (rest : List Byte)
    (script : List ReadEvent) (ts : Nat) (hs : NoFail script) :
    ∃ script1, NoFail script1 ∧
      AudioSpecificConfig ⟨h.bytes ++ rest, script, ts⟩ =
        Run.ret [0xAF, 0x00, byte (packedWord h / 256), byte (packedWord h)]
          ⟨h.bytes ++ rest, script1, ts⟩ := by
  obtain ⟨script1, hs1, hfill⟩ :=
    peekFill_full (h.bytes ++ rest) 7 (by simp [AdtsHeader.bytes]) script 0 (Nat.zero_le _) hs
  refine ⟨script1, hs1, ?_⟩
  unfold AudioSpecificConfig Peek
  simp only [hfill]
  simp only [AdtsHeader.bytes, List.cons_append, List.nil_append, List.take_succ_cons,
    List.take_zero, List.getElem?_cons_succ, List.getElem?_cons_zero]
  rw [config_bytes h]

theorem AudioSpecificConfig_state (aac : AACReader) :
    ∃ aac1, aac1.r = aac.r ∧ aac1.ts = aac.ts ∧
      ((∃ out, AudioSpecificConfig aac = Run.ret out aac1) ∨
        AudioSpecificConfig aac = Run.panic aac1) := by
  rcases hp : peekFill aac.r 7 0 aac.script with ⟨⟨adts, e⟩, script1⟩
  refine ⟨{ aac with script := script1 }, rfl, rfl, ?_⟩
  unfold AudioSpecificConfig Peek
  simp only [hp]
  split
  · exact Or.inl ⟨_, rfl⟩
  · exact Or.inr rfl

theorem AudioSpecificConfig_returns (h : AdtsHeader) (rest : List Byte)
    (script : List ReadEvent) (ts : Nat) (out : List Byte) (aac1 : AACReader)
    (hret : AudioSpecificConfig ⟨h.bytes ++ rest, script, ts⟩ = Run.ret out aac1) :
    out = [0xAF, 0x00, byte (packedWord h / 256), byte (packedWord h)] := by
  obtain ⟨k, _, _, hk⟩ := peekFill_take (h.bytes ++ rest) 7 script 0 (Nat.zero_le _)
  rcases hp : peekFill (h.bytes ++ rest) 7 0 script with ⟨⟨adts, e⟩, script1⟩
  rw [hp] at hk
  simp only [] at hk
  unfold AudioSpecificConfig Peek at hret
  simp only [hp, hk] at hret
  by_cases h4 : 4 ≤ k
  · have e2 : ((h.bytes ++ rest).take k)[2]? = some h.b2 := by
      rw [List.getElem?_take_of_lt (by omega)]
      rfl
    have e3 : ((h.bytes ++ rest).take k)[3]? = some h.b3 := by
      rw [List.getElem?_take_of_lt (by omega)]
      rfl
    simp only [e2, e3, Run.ret.injEq] at hret
    rw [← hret.1]
    simp only [List.nil_append, List.cons_append]
    exact config_bytes h
  · have e3 : ((h.bytes ++ rest).take k)[3]? = none :=
      List.getElem?_take_eq_none (by omega)
    simp only [e3] at hret
    split at hret
    · next _ _ _ _ _ heq3 => exact Option.noConfusion heq3
    · exact Run.noConfusion hret

theorem ascWord_header (h : AdtsHeader) :
    ascWord [0xAF, 0x00, byte (packedWord h / 256), byte (packedWord h)] =
      some (packedWord h) := by
  have hlt := packedWord_lt h
  simp only [ascWord, byte_val]
  rw [Option.some.injEq]
  omega

/-! ## Runs of header parses -/

theorem uint32_lt (n : Nat) : uint32 n < 4294967296 := Nat.mod_lt n (by decide)

theorem accumulate_eq : ∀ (cs : List HeaderCall) (ts : Nat),
    (∀ c ∈ cs, c.header.samplingFrequencyIndex ≤ 12 ∧ NoFail c.script) → ts < 2 ^ 32 →
    accumulate ts cs = some ((ts + (cs.map (fun c => c.header.duration)).sum) % 2 ^ 32) := by
  intro cs
  induction cs with
  | nil =>
    intro ts _ hts
    simp only [accumulate, List.map_nil, List.sum_nil, Nat.add_zero]
    rw [Nat.mod_eq_of_lt hts]
  | cons c cs ih =>
    intro ts hcs hts
    obtain ⟨hsfi, hs⟩ := hcs c (List.mem_cons_self _ _)
    obtain ⟨script1, _, hparse⟩ := parseAdtsHeader_ok c.header c.rest c.script ts hsfi hs
    have hrec := ih (uint32 (ts + c.header.duration))
      (fun d hd => hcs d (List.mem_cons_of_mem _ hd)) (uint32_lt _)
    rw [accumulate, hparse]
    simp only [hrec, List.map_cons, List.sum_cons]
    congr 1
    unfold uint32
    omega

theorem timestamps_chain : ∀ (cs : List HeaderCall) (ts : Nat),
    (∀ c ∈ cs, c.header.samplingFrequencyIndex ≤ 12 ∧ NoFail c.script) →
    ts + (cs.map (fun c => c.header.duration)).sum < 2 ^ 32 →
    ∃ l, timestamps ts cs = some l ∧ l.length = cs.length ∧ List.Chain (fun a b => a ≤ b) ts l := by
  intro cs
  induction cs with
  | nil =>
    intro ts _ _
    exact ⟨[], rfl, rfl, List.Chain.nil⟩
  | cons c cs ih =>
    intro ts hcs hsum
    obtain ⟨hsfi, hs⟩ := hcs c (List.mem_cons_self _ _)
    obtain ⟨script1, _, hparse⟩ := parseAdtsHeader_ok c.header c.rest c.script ts hsfi hs
    simp only [List.map_cons, List.sum_cons] at hsum
    have hu : uint32 (ts + c.header.duration) = ts + c.header.duration := by
      unfold uint32
      omega
    obtain ⟨l, hl, hlen, hchain⟩ := ih (ts + c.header.duration)
      (fun d hd => hcs d (List.mem_cons_of_mem _ hd)) (by omega)
    refine ⟨(ts + c.header.duration) :: l, ?_, by simp [hlen], List.Chain.cons (by omega) hchain⟩
    rw [timestamps, hparse]
    simp only [hu, hl, GetTimestampOfFrame, Option.map_some']

/-! ## The conversion loop -/

theorem mainLoop_stream : ∀ (fs : List Frame) (fuel : Nat) (script : List ReadEvent)
    (ts : Nat) (flv : FLV) (calls : List TagCall),
    (∀ f ∈ fs, f.WellFormed) → NoFail script → fs.length < fuel →
    mainLoop fuel ⟨stream fs, script, ts⟩ flv calls =
      { exit := Exit.success,
        flv := (expectedCalls ts fs).foldl (fun w c => WriteTag w c.t c.d c.ts) flv,
        calls := calls ++ expectedCalls ts fs } := by
  intro fs
  induction fs with
  | nil =>
    intro fuel script ts flv calls _ hs hfuel
    obtain ⟨script1, _, hraw⟩ := RawDataOfFrame_short [] script ts (by decide) hs
    cases fuel with
    | zero => exact absurd hfuel (Nat.lt_irrefl 0)
    | succ fuel => simp [mainLoop, stream, hraw, expectedCalls]
  | cons f fs ih =>
    intro fuel script ts flv calls hwf hs hfuel
    obtain ⟨script1, hs1, hraw⟩ :=
      RawDataOfFrame_frame f (stream fs) script ts (hwf f (List.mem_cons_self _ _)) hs
    cases fuel with
    | zero => exact absurd hfuel (Nat.not_lt_zero _)
    | succ fuel =>
      have hrec := ih fuel script1 (uint32 (ts + f.header.duration))
        (WriteTag flv AudioTag (0xAF :: 0x01 :: f.payload) ts)
        (calls ++ [{ t := AudioTag, d := 0xAF :: 0x01 :: f.payload, ts := ts }])
        (fun g hg => hwf g (List.mem_cons_of_mem _ hg)) hs1
        (by simp only [List.length_cons] at hfuel; omega)
      rw [mainLoop, stream, hraw]
      simp only [GetTimestampOfFrame, hrec, expectedCalls, List.foldl_cons, List.append_assoc,
        List.singleton_append]

theorem stream_length : ∀ fs : List Frame, fs.length ≤ (stream fs).length := by
  intro fs
  induction fs with
  | nil => simp [stream]
  | cons f fs ih =>
    simp only [stream, Frame.bytes, AdtsHeader.bytes, List.length_append, List.length_cons,
      List.length_nil]
    omega

theorem expectedCalls_getElem? : ∀ (fs : List Frame) (ts k : Nat), ts < 2 ^ 32 →
    (expectedCalls ts fs)[k]? =
      fs[k]?.map (fun f =>
        { t := AudioTag, d := 0xAF :: 0x01 :: f.payload,
          ts := (ts + ((fs.take k).map (fun g => g.header.duration)).sum) % 2 ^ 32 }) := by
  intro fs
  induction fs with
  | nil => intro ts k _; simp [expectedCalls]
  | cons f fs ih =>
    intro ts k hts
    cases k with
    | zero =>
      simp only [expectedCalls, List.getElem?_cons_zero, List.take_zero, List.map_nil,
        List.sum_nil, Nat.add_zero, Option.map_some', Nat.mod_eq_of_lt hts]
    | succ k =>
      have hrec := ih (uint32 (ts + f.header.duration)) k (uint32_lt _)
      simp only [expectedCalls, List.getElem?_cons_succ, List.take_succ_cons, List.map_cons,
        List.sum_cons, hrec]
      congr 1
      funext g
      congr 1
      unfold uint32
      omega

theorem expectedCalls_length : ∀ (fs : List Frame) (ts : Nat),
    (expectedCalls ts fs).length = fs.length := by
  intro fs
  induction fs with
  | nil => intro ts; rfl
  | cons f fs ih => intro ts; simp [expectedCalls, ih]

theorem main_stream (f : Frame) (fs : List Frame) (script : List ReadEvent)
    (hwf : ∀ g ∈ f :: fs, g.WellFormed) (hs : NoFail script) :
    (main (stream (f :: fs)) script).exit = Exit.success ∧
      (main (stream (f :: fs)) script).calls = expectedCalls 0 (f :: fs) := by
  obtain ⟨script1, hs1, hasc⟩ :=
    AudioSpecificConfig_header f.header (f.payload ++ stream fs) script 0 hs
  have hst : stream (f :: fs) = f.header.bytes ++ (f.payload ++ stream fs) := by
    simp [stream, Frame.bytes]
  have hfuel : (f :: fs).length < (stream (f :: fs)).length + 1 :=
    Nat.lt_succ_of_le (stream_length _)
  unfold main
  simp only []
  rw [← hst] at hasc
  rw [hasc]
  simp only [mainLoop_stream (f :: fs) _ script1 0 _ [] hwf hs1 hfuel, List.nil_append,
    and_self]

/-! ## Main results -/

/-- C1: for every tag type `t` in 0..255, data `d` shorter than 2^24 and 32-bit
timestamp `ts`, `WriteTag` appends exactly `15 + len(d)` bytes: the type byte,
`len(d)` as 3 bytes big-endian, the low 24 bits of `ts` as 3 bytes big-endian, the
high 8 bits of `ts`, three zero bytes, `d` unchanged and `11 + len(d)` as 4 bytes
big-endian; and `WriteTag(AudioTag, [AA BB], 0x01020304)` writes
`08 00 00 02 02 03 04 01 00 00 00 AA BB 00 00 00 0D`. -/
theorem C1_writeTag_layout (flv : FLV) (t : Nat) (d : List Byte) (ts : Nat)
    (ht : t < 256) (hd : d.length < 2 ^ 24) (hts : ts < 2 ^ 32) :
    (WriteTag flv (t : Int) d ts).w =
        flv.w ++ ([byte t] ++ bigEndian 3 d.length ++ bigEndian 3 (ts % 2 ^ 24) ++
          [byte (ts / 2 ^ 24)] ++ [0, 0, 0] ++ d ++ bigEndian 4 (11 + d.length)) ∧
      (WriteTag flv (t : Int) d ts).w.length = flv.w.length + (15 + d.length) ∧
      (byte t).val = t ∧
      fromBigEndian (bigEndian 3 d.length) = d.length ∧
      fromBigEndian (bigEndian 3 (ts % 2 ^ 24)) = ts % 2 ^ 24 ∧
      (byte (ts / 2 ^ 24)).val = ts / 2 ^ 24 ∧
      fromBigEndian (bigEndian 4 (11 + d.length)) = 11 + d.length ∧
      (WriteTag ⟨[]⟩ AudioTag [0xAA, 0xBB] 0x01020304).w =
        [0x08, 0x00, 0x00, 0x02, 0x02, 0x03, 0x04, 0x01, 0x00, 0x00, 0x00, 0xAA, 0xBB,
          0x00, 0x00, 0x00, 0x0D] := by
  have hbytes := writeTag_bytes flv (t : Int) d ts hd
  rw [byteOfInt_natCast] at hbytes
  refine ⟨hbytes, ?_, ?_, ?_, ?_, ?_, ?_, by decide⟩
  · rw [hbytes]
    simp only [List.length_append, List.length_cons, List.length_nil, bigEndian_length]
    omega
  · rw [byte_val]
    omega
  · exact fromBigEndian_bigEndian 3 _ (by omega)
  · exact fromBigEndian_bigEndian 3 _ (by omega)
  · rw [byte_val]
    omega
  · exact fromBigEndian_bigEndian 4 _ (by omega)

/-- C1 at a concrete input: a video tag with two data bytes and timestamp
`0xA1B2C3D4` appended to a one-byte file. -/
theorem C1_writeTag_layout_witness :
    ((9 : Nat) < 256 ∧ ([0x11, 0x22] : List Byte).length < 2 ^ 24 ∧ 0xA1B2C3D4 < 2 ^ 32) ∧
      (WriteTag ⟨[0x46]⟩ ((9 : Nat) : Int) [0x11, 0x22] 0xA1B2C3D4).w.length =
        ([0x46] : List Byte).length + (15 + ([0x11, 0x22] : List Byte).length) :=
  ⟨⟨by decide, by decide, by decide⟩,
    (C1_writeTag_layout ⟨[0x46]⟩ 9 [0x11, 0x22] 0xA1B2C3D4
      (by decide) (by decide) (by decide)).2.1⟩

/-- C2: on the concatenation of N well-formed ADTS frames, however the reads are
split into pieces of at least one byte, N successive calls of `RawDataOfFrame`
succeed, the i-th returning `AF 01` followed by the `frameLength_i - 7` payload
bytes of frame i, and call N+1 returns `io.EOF`. -/
theorem C2_rawData_frames (fs : List Frame) (script : List ReadEvent) (ts : Nat)
    (hwf : ∀ f ∈ fs, f.WellFormed) (hs : NoFail script) :
    rawDataCalls (fs.length + 1) ⟨stream fs, script, ts⟩ =
        fs.map (fun f => (0xAF :: 0x01 :: f.payload, none)) ++ [([], some Error.EOF)] ∧
      ∀ f ∈ fs, 7 ≤ f.header.frameLength ∧ f.payload.length = f.header.frameLength - 7 := by
  refine ⟨rawDataCalls_stream fs script ts hwf hs, ?_⟩
  intro f hf
  have h := (hwf f hf).1
  omega

/-- C2 at a concrete input: two frames, read in pieces of 3, 1 and 100 bytes and
then in full. -/
theorem C2_rawData_frames_witness :
    ((∀ f ∈ [frameA, frameB], f.WellFormed) ∧
        NoFail [ReadEvent.deliver 3, ReadEvent.deliver 1, ReadEvent.deliver 100]) ∧
      rawDataCalls ([frameA, frameB].length + 1)
          ⟨stream [frameA, frameB],
            [ReadEvent.deliver 3, ReadEvent.deliver 1, ReadEvent.deliver 100], 0⟩ =
        [frameA, frameB].map (fun f => (0xAF :: 0x01 :: f.payload, none)) ++
          [([], some Error.EOF)] :=
  ⟨⟨by decide, by decide⟩,
    (C2_rawData_frames [frameA, frameB]
      [ReadEvent.deliver 3, ReadEvent.deliver 1, ReadEvent.deliver 100] 0
      (by decide) (by decide)).1⟩

/-- C3 on the code: for the AAC-LC header with sampling frequency index 4 and
channel configuration 2 (bytes `FF F1 50 80 01 20 FC`) `AudioSpecificConfig`
returns `AF 00 0A 10`, not `AF 00 12 10`: the top 5 bits of the word are the
header's profile bits 01, i.e. 1, and not the audioObjectType 2 of AAC-LC; the
other fields are as claimed. -/
theorem C3_objectType_lc :
    AudioSpecificConfig ⟨lcHeader.bytes, [], 0⟩ =
        Run.ret [0xAF, 0x00, 0x0A, 0x10] ⟨lcHeader.bytes, [], 0⟩ ∧
      lcHeader.profile = 1 ∧
      lcHeader.samplingFrequencyIndex = 4 ∧
      lcHeader.channelConfiguration = 2 ∧
      ((AudioSpecificConfig ⟨lcHeader.bytes, [], 0⟩).value.bind ascWord).map
        (fun w => w / 2 ^ 11) = some 1 ∧
      ((AudioSpecificConfig ⟨lcHeader.bytes, [], 0⟩).value.bind ascWord).map
        (fun w => w % 2 ^ 11) = some ((4 <<< 7) ||| (2 <<< 3)) ∧
      (((2 <<< 11) ||| (4 <<< 7)) ||| (2 <<< 3) : Nat) = 0x1210 := by
  decide

/-- C4 on the code: the flags byte (fifth byte) written by `WriteHeader` is 0x04
for `Audio` and 0x05 for `AudioVideo`, but for `Video` it is 0x05 and not 0x01. -/
theorem C4_writeHeader_flags :
    (WriteHeader ⟨[]⟩ Audio).w[4]? = some 0x04 ∧
      (WriteHeader ⟨[]⟩ Video).w[4]? = some 0x05 ∧
      (WriteHeader ⟨[]⟩ AudioVideo).w[4]? = some 0x05 := by
  decide

/-- C5, as the code has it: on a stream of well-formed frames the conversion
loop ends with success after one `WriteTag` call per frame, and the timestamp
passed with the payload of frame k is the accumulator as it is before that
frame is read, i.e. the sum of the durations of the frames before frame k
(modulo 2^32); the first frame is tagged with 0. -/
theorem C5_timestamp_before_frame (f : Frame) (fs : List Frame) (script : List ReadEvent)
    (hwf : ∀ g ∈ f :: fs, g.WellFormed) (hs : NoFail script) :
    (main (stream (f :: fs)) script).exit = Exit.success ∧
      (main (stream (f :: fs)) script).calls.length = (f :: fs).length ∧
      (main (stream (f :: fs)) script).calls[0]? =
        some { t := AudioTag, d := 0xAF :: 0x01 :: f.payload, ts := 0 } ∧
      ∀ k : Nat, (main (stream (f :: fs)) script).calls[k]? =
        (f :: fs)[k]?.map (fun g =>
          { t := AudioTag, d := 0xAF :: 0x01 :: g.payload,
            ts := (((f :: fs).take k).map (fun g => g.header.duration)).sum % 2 ^ 32 }) := by
  obtain ⟨hexit, hcalls⟩ := main_stream f fs script hwf hs
  have hidx : ∀ k : Nat, (main (stream (f :: fs)) script).calls[k]? =
      (f :: fs)[k]?.map (fun g =>
        { t := AudioTag, d := 0xAF :: 0x01 :: g.payload,
          ts := (((f :: fs).take k).map (fun g => g.header.duration)).sum % 2 ^ 32 }) := by
    intro k
    rw [hcalls, expectedCalls_getElem? (f :: fs) 0 k (by decide)]
    simp only [Nat.zero_add]
  refine ⟨hexit, ?_, ?_, hidx⟩
  · rw [hcalls, expectedCalls_length]
  · rw [hidx 0]
    simp only [List.getElem?_cons_zero, List.take_zero, List.map_nil, List.sum_nil,
      Nat.zero_mod, Option.map_some']

/-- C5 at a concrete input: two frames, the first read in pieces. -/
theorem C5_timestamp_before_frame_witness :
    ((∀ g ∈ frameA :: [frameB], g.WellFormed) ∧ NoFail [ReadEvent.deliver 3]) ∧
      (main (stream (frameA :: [frameB])) [ReadEvent.deliver 3]).calls.length =
        (frameA :: [frameB]).length :=
  ⟨⟨by decide, by decide⟩,
    (C5_timestamp_before_frame frameA [frameB] [ReadEvent.deliver 3]
      (by decide) (by decide)).2.1⟩

/-- C5 fails as stated: on a stream of one frame of duration 23 ms the only
`WriteTag` call of the loop carries timestamp 0, not 23. -/
theorem C5_counterexample :
    (main (stream [frameA]) []).calls =
        [{ t := AudioTag, d := [0xAF, 0x01, 0x01, 0x02], ts := 0 }] ∧
      frameA.header.duration = 23 ∧
      frameA.WellFormed := by
  decide

/-- C6 on the code: for a header with channel configuration 4 (bit 0 of byte 2
set, bits 7..6 of byte 3 clear) the channel field (bits 6..3) of the word written
by `AudioSpecificConfig` is 1, not 4. -/
theorem C6_channel_field_four :
    fourChannelHeader.channelConfiguration = 4 ∧
      ((AudioSpecificConfig ⟨fourChannelHeader.bytes, [], 0⟩).value.bind ascWord).map
        (fun w => w / 2 ^ 3 % 16) = some 1 := by
  decide

/-- C7, as the code has it: when every frame has sample rate `R` and block count
`B`, each parsed frame advances the accumulator by `B * 1024 * 1000 / R` rounded
down, so that starting from 0 and absent 32-bit overflow the accumulator after
i frames is `i * floor(B * 1024 * 1000 / R)`. -/
theorem C7_constant_rate (R B : Nat) (cs : List HeaderCall)
    (hcs : ∀ c ∈ cs, c.header.samplingFrequencyIndex ≤ 12 ∧ c.header.sampleRate = R ∧
      c.header.blocks = B ∧ NoFail c.script)
    (hov : cs.length * (B * 1024 * 1000 / R) < 2 ^ 32) :
    accumulate 0 cs = some (cs.length * (B * 1024 * 1000 / R)) := by
  have hsum : ∀ l : List HeaderCall,
      (∀ c ∈ l, c.header.sampleRate = R ∧ c.header.blocks = B) →
      (l.map (fun c => c.header.duration)).sum = l.length * (B * 1024 * 1000 / R) := by
    intro l
    induction l with
    | nil => intro _; simp
    | cons c l ih =>
      intro hl
      obtain ⟨hR, hB⟩ := hl c (List.mem_cons_self _ _)
      have hrec := ih (fun d hd => hl d (List.mem_cons_of_mem _ hd))
      have hd : c.header.duration = B * 1024 * 1000 / R := by
        unfold AdtsHeader.duration
        rw [hR, hB]
      simp only [List.map_cons, List.sum_cons, List.length_cons, hrec, hd]
      rw [Nat.add_mul, Nat.one_mul, Nat.add_comm]
  rw [accumulate_eq cs 0 (fun c hc => ⟨(hcs c hc).1, (hcs c hc).2.2.2⟩) (by decide),
    hsum cs (fun c hc => ⟨(hcs c hc).2.1, (hcs c hc).2.2.1⟩), Nat.zero_add,
    Nat.mod_eq_of_lt hov]

/-- C7 at a concrete input: three frames at 44100 Hz with one block each. -/
theorem C7_constant_rate_witness :
    ((∀ c ∈ List.replicate 3 (HeaderCall.mk lcHeader [] []),
          c.header.samplingFrequencyIndex ≤ 12 ∧ c.header.sampleRate = 44100 ∧
            c.header.blocks = 1 ∧ NoFail c.script) ∧
        (List.replicate 3 (HeaderCall.mk lcHeader [] [])).length *
          (1 * 1024 * 1000 / 44100) < 2 ^ 32) ∧
      accumulate 0 (List.replicate 3 (HeaderCall.mk lcHeader [] [])) =
        some ((List.replicate 3 (HeaderCall.mk lcHeader [] [])).length *
          (1 * 1024 * 1000 / 44100)) :=
  ⟨⟨by decide, by decide⟩,
    C7_constant_rate 44100 1 (List.replicate 3 (HeaderCall.mk lcHeader [] []))
      (by decide) (by decide)⟩

/-- C7 fails as stated: for one block at 96000 Hz the accumulator advances by 10,
while `1024 * 1000 / 96000` rounded to the nearest integer is 11. -/
theorem C7_counterexample :
    fastHeader.sampleRate = 96000 ∧ fastHeader.blocks = 1 ∧
      accumulate 0 [HeaderCall.mk fastHeader [] []] = some 10 ∧
      roundDiv (1 * 1024 * 1000) 96000 = 11 := by
  decide

/-- C8: for every run of header parses with sampling frequency index at most 12,
starting from accumulator 0, the accumulator afterwards is the sum over the
frames of `(b_i + 1) * 1024 * 1000 / rate_i` with truncating division, reduced
modulo 2^32, where `b_i` is header byte 6 & 3 and `rate_i` the table entry at
index `(byte 2 >> 2) & 0xF`. -/
theorem C8_accumulator_sum (cs : List HeaderCall)
    (hcs : ∀ c ∈ cs, (c.header.b2.val >>> 2) &&& 0xF ≤ 12 ∧ NoFail c.script) :
    accumulate 0 cs =
      some ((cs.map (fun c => ((c.header.b6.val &&& 3) + 1) * 1024 * 1000 /
        sampleRateArray.getD ((c.header.b2.val >>> 2) &&& 0xF) 0)).sum % 2 ^ 32) := by
  have hdur : ∀ c : HeaderCall, ((c.header.b6.val &&& 3) + 1) * 1024 * 1000 /
      sampleRateArray.getD ((c.header.b2.val >>> 2) &&& 0xF) 0 = c.header.duration := by
    intro c
    have e6 : c.header.b6.val &&& 3 = c.header.b6.val % 4 :=
      Nat.and_pow_two_sub_one_eq_mod _ 2
    have e2 : (c.header.b2.val >>> 2) &&& 0xF = c.header.b2.val / 4 % 16 :=
      samplingFrequencyIndex_code c.header.b2
    rw [e6, e2]
    rfl
  have hcs2 : ∀ c ∈ cs, c.header.samplingFrequencyIndex ≤ 12 ∧ NoFail c.script := by
    intro c hc
    have e2 : (c.header.b2.val >>> 2) &&& 0xF = c.header.samplingFrequencyIndex :=
      samplingFrequencyIndex_code c.header.b2
    have h := hcs c hc
    rw [e2] at h
    exact h
  rw [accumulate_eq cs 0 hcs2 (by decide), Nat.zero_add]
  simp only [hdur]

/-- C8 at a concrete input: a 44100 Hz frame followed by a 96000 Hz frame. -/
theorem C8_accumulator_sum_witness :
    (∀ c ∈ [HeaderCall.mk lcHeader [0x01] [ReadEvent.deliver 2], HeaderCall.mk fastHeader [] []],
        (c.header.b2.val >>> 2) &&& 0xF ≤ 12 ∧ NoFail c.script) ∧
      accumulate 0
          [HeaderCall.mk lcHeader [0x01] [ReadEvent.deliver 2], HeaderCall.mk fastHeader [] []] =
        some (([HeaderCall.mk lcHeader [0x01] [ReadEvent.deliver 2],
          HeaderCall.mk fastHeader [] []].map
            (fun c => ((c.header.b6.val &&& 3) + 1) * 1024 * 1000 /
              sampleRateArray.getD ((c.header.b2.val >>> 2) &&& 0xF) 0)).sum % 2 ^ 32) :=
  ⟨by decide,
    C8_accumulator_sum
      [HeaderCall.mk lcHeader [0x01] [ReadEvent.deliver 2], HeaderCall.mk fastHeader [] []]
      (by decide)⟩

/-- C9, as the code has it: along a run of successfully parsed frames (sampling
frequency index at most 12) for which the accumulator plus the durations stays
below 2^32, the values returned by `GetTimestampOfFrame` never decrease: each is
at least the one before, starting from the accumulator `ts` before the run. -/
theorem C9_monotone_below_wrap (cs : List HeaderCall) (ts : Nat)
    (hcs : ∀ c ∈ cs, c.header.samplingFrequencyIndex ≤ 12 ∧ NoFail c.script)
    (hov : ts + (cs.map (fun c => c.header.duration)).sum < 2 ^ 32) :
    ∃ l, timestamps ts cs = some l ∧ l.length = cs.length ∧
      List.Chain (fun a b => a ≤ b) ts l :=
  timestamps_chain cs ts hcs hov

/-- C9 at a concrete input: two frames parsed from accumulator 100. -/
theorem C9_monotone_below_wrap_witness :
    ((∀ c ∈ [HeaderCall.mk lcHeader [] [], HeaderCall.mk fastHeader [] []],
          c.header.samplingFrequencyIndex ≤ 12 ∧ NoFail c.script) ∧
        100 + ([HeaderCall.mk lcHeader [] [], HeaderCall.mk fastHeader [] []].map
          (fun c => c.header.duration)).sum < 2 ^ 32) ∧
      ∃ l, timestamps 100 [HeaderCall.mk lcHeader [] [], HeaderCall.mk fastHeader [] []] =
          some l ∧
        l.length = [HeaderCall.mk lcHeader [] [], HeaderCall.mk fastHeader [] []].length ∧
        List.Chain (fun a b => a ≤ b) 100 l :=
  ⟨⟨by decide, by decide⟩,
    C9_monotone_below_wrap [HeaderCall.mk lcHeader [] [], HeaderCall.mk fastHeader [] []] 100
      (by decide) (by decide)⟩

/-- C9 fails as stated: from accumulator 2^32 - 1 a successful parse of a 23 ms
frame leaves the accumulator at 22, which is smaller. -/
theorem C9_counterexample :
    parseAdtsHeader ⟨lcHeader.bytes, [], 4294967295⟩ = Run.ret (2, none) ⟨[], [], 22⟩ ∧
      lcHeader.samplingFrequencyIndex ≤ 12 ∧
      GetTimestampOfFrame ⟨[], [], 22⟩ < GetTimestampOfFrame ⟨lcHeader.bytes, [], 4294967295⟩ := by
  decide

/-- C10, as the code has it: when between 1 and 6 bytes remain as
`RawDataOfFrame` starts reading a header (and no read fails with an I/O error),
it returns an empty slice and the error `io.EOF`, the same error it returns when
0 bytes remain; it never returns a short frame. -/
theorem C10_truncated_header_eof (data : List Byte) (script : List ReadEvent) (ts : Nat)
    (h1 : 1 ≤ data.length) (h6 : data.length ≤ 6) (hs : NoFail script) :
    ∃ script1 script2,
      RawDataOfFrame ⟨data, script, ts⟩ = Run.ret ([], some Error.EOF) ⟨[], script1, ts⟩ ∧
      RawDataOfFrame ⟨[], script, ts⟩ = Run.ret ([], some Error.EOF) ⟨[], script2, ts⟩ := by
  obtain ⟨script1, _, hraw1⟩ := RawDataOfFrame_short data script ts (by omega) hs
  obtain ⟨script2, _, hraw2⟩ := RawDataOfFrame_short [] script ts (by decide) hs
  exact ⟨script1, script2, hraw1, hraw2⟩

/-- C10 at a concrete input: three bytes remain and are delivered one at a time. -/
theorem C10_truncated_header_eof_witness :
    (1 ≤ ([0xFF, 0xF1, 0x50] : List Byte).length ∧
        ([0xFF, 0xF1, 0x50] : List Byte).length ≤ 6 ∧
        NoFail [ReadEvent.deliver 1, ReadEvent.deliver 1]) ∧
      ∃ script1 script2,
        RawDataOfFrame ⟨[0xFF, 0xF1, 0x50], [ReadEvent.deliver 1, ReadEvent.deliver 1], 7⟩ =
          Run.ret ([], some Error.EOF) ⟨[], script1, 7⟩ ∧
        RawDataOfFrame ⟨[], [ReadEvent.deliver 1, ReadEvent.deliver 1], 7⟩ =
          Run.ret ([], some Error.EOF) ⟨[], script2, 7⟩ :=
  ⟨⟨by decide, by decide, by decide⟩,
    C10_truncated_header_eof [0xFF, 0xF1, 0x50] [ReadEvent.deliver 1, ReadEvent.deliver 1] 7
      (by decide) (by decide) (by decide)⟩

/-- C10 fails as stated: with three bytes left `RawDataOfFrame` returns `io.EOF`,
exactly what it returns at a clean end of stream, and `main` reports success on
the truncated input. -/
theorem C10_counterexample :
    RawDataOfFrame ⟨[0xFF, 0xF1, 0x50], [], 0⟩ = Run.ret ([], some Error.EOF) ⟨[], [], 0⟩ ∧
      RawDataOfFrame ⟨[], [], 0⟩ = Run.ret ([], some Error.EOF) ⟨[], [], 0⟩ ∧
      (main (stream [frameA] ++ [0xFF, 0xF1, 0x50]) []).exit = Exit.success := by
  decide

/-! ## The read loop under every script -/

theorem Read_ok_inv (aac : AACReader) (k : Nat) (hk : 0 < k) (buf : List Byte)
    (aac1 : AACReader) (h : Read aac k = (Except.ok buf, aac1)) :
    ∃ n, 1 ≤ n ∧ n ≤ k ∧ n ≤ aac.r.length ∧ buf = aac.r.take n ∧ aac1.r = aac.r.drop n ∧
      aac1.ts = aac.ts := by
  obtain ⟨r, script, ts⟩ := aac
  show ∃ n, 1 ≤ n ∧ n ≤ k ∧ n ≤ r.length ∧ buf = r.take n ∧ aac1.r = r.drop n ∧ aac1.ts = ts
  cases script with
  | nil =>
    by_cases hr : r = []
    · simp [Read, hr] at h
    · have hlen : 0 < r.length := List.length_pos.mpr hr
      simp only [Read, hr, if_false, Prod.mk.injEq, Except.ok.injEq] at h
      obtain ⟨hb, ha⟩ := h
      refine ⟨min k r.length, by omega, by omega, by omega, hb.symm, ?_, ?_⟩
      · rw [← ha]
      · rw [← ha]
  | cons ev rest =>
    cases ev with
    | fail => simp [Read] at h
    | deliver c =>
      by_cases hr : r = []
      · simp [Read, hr] at h
      · have hlen : 0 < r.length := List.length_pos.mpr hr
        simp only [Read, hr, if_false, Prod.mk.injEq, Except.ok.injEq] at h
        obtain ⟨hb, ha⟩ := h
        refine ⟨max 1 (min c (min k r.length)), by omega, by omega, by omega, hb.symm, ?_, ?_⟩
        · rw [← ha]
        · rw [← ha]

theorem Read_err_inv (aac : AACReader) (k : Nat) (e : Error) (aac1 : AACReader)
    (h : Read aac k = (Except.error e, aac1)) : aac1.r = aac.r ∧ aac1.ts = aac.ts := by
  obtain ⟨r, script, ts⟩ := aac
  cases script with
  | nil =>
    by_cases hr : r = []
    · simp only [Read, hr, if_true, Prod.mk.injEq] at h
      rw [← h.2, hr]
      exact ⟨rfl, rfl⟩
    · simp [Read, hr] at h
  | cons ev rest =>
    cases ev with
    | fail =>
      simp only [Read, Prod.mk.injEq] at h
      rw [← h.2]
      exact ⟨rfl, rfl⟩
    | deliver c =>
      by_cases hr : r = []
      · simp only [Read, hr, if_true, Prod.mk.injEq] at h
        rw [← h.2]
        exact ⟨hr.symm ▸ rfl, rfl⟩
      · simp [Read, hr] at h

theorem readLoop_inv : ∀ (fuel remain : Nat) (acc : List Byte) (aac : AACReader),
    (∀ data aac1, readLoop fuel remain acc aac = LoopResult.done data aac1 →
      remain ≤ aac.r.length ∧ data = acc ++ aac.r.take remain ∧
        aac1.r = aac.r.drop remain ∧ aac1.ts = aac.ts) ∧
    (∀ e data aac1, readLoop fuel remain acc aac = LoopResult.failed e data aac1 →
      ∃ k, k < remain ∧ k ≤ aac.r.length ∧ data = acc ++ aac.r.take k ∧
        aac1.r = aac.r.drop k ∧ aac1.ts = aac.ts) ∧
    (readLoop fuel remain acc aac = LoopResult.stuck → fuel < remain) := by
  intro fuel
  induction fuel with
  | zero =>
    intro remain acc aac
    by_cases hpos : 0 < remain
    · simp [readLoop, hpos]
    · have h0 : remain = 0 := by omega
      subst h0
      simp [readLoop]
  | succ fuel ih =>
    intro remain acc aac
    by_cases hpos : 0 < remain
    · rcases hR : Read aac remain with ⟨res, aac2⟩
      cases res with
      | error e2 =>
        obtain ⟨hr, hts⟩ := Read_err_inv aac remain e2 aac2 hR
        have hrl : readLoop (fuel + 1) remain acc aac = LoopResult.failed e2 acc aac2 := by
          simp only [readLoop, hpos, if_true, hR]
        rw [hrl]
        refine ⟨fun data aac1 h => LoopResult.noConfusion h, ?_,
          fun h => LoopResult.noConfusion h⟩
        intro e data aac1 h
        simp only [LoopResult.failed.injEq] at h
        obtain ⟨_, hd, ha⟩ := h
        refine ⟨0, hpos, Nat.zero_le _, ?_, ?_, ?_⟩
        · simp [← hd]
        · rw [← ha, hr]; simp
        · rw [← ha, hts]
      | ok buf =>
        obtain ⟨n, hn1, hnk, hnl, hbuf, hr, hts⟩ := Read_ok_inv aac remain hpos buf aac2 hR
        have hlen : buf.length = n := by rw [hbuf, List.length_take]; omega
        obtain ⟨ih1, ih2, ih3⟩ := ih (remain - n) (acc ++ buf) aac2
        have hl2 : aac2.r.length = aac.r.length - n := by rw [hr, List.length_drop]
        have htake : ∀ m, n ≤ m → aac.r.take n ++ (aac.r.drop n).take (m - n) = aac.r.take m := by
          intro m hm
          have := List.take_add aac.r n (m - n)
          rw [Nat.add_sub_cancel' hm] at this
          exact this.symm
        have hdrop : ∀ m, n ≤ m → (aac.r.drop n).drop (m - n) = aac.r.drop m := by
          intro m hm
          rw [List.drop_drop, Nat.add_sub_cancel' hm]
        have hrl : readLoop (fuel + 1) remain acc aac =
            readLoop fuel (remain - n) (acc ++ buf) aac2 := by
          simp only [readLoop, hpos, if_true, hR, hlen]
        rw [hrl]
        refine ⟨?_, ?_, ?_⟩
        · intro data aac1 h
          obtain ⟨h1, h2, h3, h4⟩ := ih1 data aac1 h
          refine ⟨by omega, ?_, ?_, by rw [h4, hts]⟩
          · rw [h2, hr, hbuf, List.append_assoc, htake remain hnk]
          · rw [h3, hr, hdrop remain hnk]
        · intro e data aac1 h
          obtain ⟨k, hk1, hk2, hk3, hk4, hk5⟩ := ih2 e data aac1 h
          refine ⟨n + k, by omega, by omega, ?_, ?_, by rw [hk5, hts]⟩
          · rw [hk3, hr, hbuf, List.append_assoc]
            have := htake (n + k) (Nat.le_add_right n k)
            rw [Nat.add_sub_cancel_left] at this
            rw [this]
          · rw [hk4, hr]
            have := hdrop (n + k) (Nat.le_add_right n k)
            rw [Nat.add_sub_cancel_left] at this
            exact this
        · intro h
          have := ih3 h
          omega
    · have h0 : remain = 0 := by omega
      subst h0
      simp [readLoop]

/-! ## Frame length and table lookup -/

theorem frameLength_bits (h : AdtsHeader) :
    (((h.b3.val &&& 3) <<< 11) ||| (h.b4.val <<< 3)) ||| (h.b5.val >>> 5) = h.frameLength := by
  have h3 := h.b3.isLt
  have h4 := h.b4.isLt
  have h5 := h.b5.isLt
  have e3 : h.b3.val &&& 3 = h.b3.val % 4 := Nat.and_pow_two_sub_one_eq_mod _ 2
  rw [e3, Nat.shiftLeft_eq, Nat.shiftLeft_eq, Nat.shiftRight_eq_div_pow, Nat.lor_assoc]
  have e1 : h.b4.val * 2 ^ 3 ||| h.b5.val / 2 ^ 5 = h.b4.val * 2 ^ 3 + h.b5.val / 2 ^ 5 := by
    rw [Nat.mul_comm, ← Nat.mul_add_lt_is_or (by omega : h.b5.val / 2 ^ 5 < 2 ^ 3)]
  rw [e1]
  have e2 : h.b3.val % 4 * 2 ^ 11 ||| (h.b4.val * 2 ^ 3 + h.b5.val / 2 ^ 5) =
      h.b3.val % 4 * 2 ^ 11 + (h.b4.val * 2 ^ 3 + h.b5.val / 2 ^ 5) := by
    rw [Nat.mul_comm,
      ← Nat.mul_add_lt_is_or (by omega : h.b4.val * 2 ^ 3 + h.b5.val / 2 ^ 5 < 2 ^ 11)]
  rw [e2]
  unfold AdtsHeader.frameLength
  omega

theorem sampleRateArray_none (i : Nat) (hi : 13 ≤ i) : sampleRateArray[i]? = none :=
  List.getElem?_eq_none (by simpa [sampleRateArray] using hi)

theorem parseAdtsHeader_panic (h : AdtsHeader) (rest : List Byte) (script : List ReadEvent)
    (ts : Nat) (hsfi : 13 ≤ h.samplingFrequencyIndex) (hs : NoFail script) :
    ∃ script1, NoFail script1 ∧
      parseAdtsHeader ⟨h.bytes ++ rest, script, ts⟩ = Run.panic ⟨rest, script1, ts⟩ := by
  obtain ⟨script1, hs1, hloop⟩ :=
    readLoop_full 7 7 [] h.bytes rest script ts (Nat.le_refl 7) rfl hs
  refine ⟨script1, hs1, ?_⟩
  have hidx : (h.b2.val >>> 2) &&& 0x0f = h.samplingFrequencyIndex :=
    samplingFrequencyIndex_code h.b2
  unfold parseAdtsHeader
  rw [hloop]
  simp only [List.nil_append, AdtsHeader.bytes, List.getElem?_cons_succ,
    List.getElem?_cons_zero]
  rw [hidx, sampleRateArray_none _ hsfi]

/-- C11: for every header with sampling frequency index at most 12,
`parseAdtsHeader` computes `frameLength = ((b3 & 3) << 11) | (b4 << 3) | (b5 >> 5)`,
a value in 0..8191, and returns `(frameLength - 7) mod 2^16`, never negative: it is
`frameLength - 7` when `frameLength >= 7` and `frameLength + 65529` (between 65529
and 65535) when `frameLength < 7`. -/
theorem C11_payload_length (h : AdtsHeader) (rest : List Byte) (script : List ReadEvent)
    (ts : Nat) (hsfi : (h.b2.val >>> 2) &&& 0xF ≤ 12) (hs : NoFail script) :
    ∃ script1 fl n,
      fl = (((h.b3.val &&& 3) <<< 11) ||| (h.b4.val <<< 3)) ||| (h.b5.val >>> 5) ∧
      fl ≤ 8191 ∧
      parseAdtsHeader ⟨h.bytes ++ rest, script, ts⟩ =
        Run.ret (n, none) ⟨rest, script1, uint32 (ts + h.duration)⟩ ∧
      (n : Int) = ((fl : Int) - 7) % 2 ^ 16 ∧
      (7 ≤ fl → n = fl - 7) ∧
      (fl < 7 → n = fl + 65529 ∧ 65529 ≤ n ∧ n ≤ 65535) := by
  have hidx : (h.b2.val >>> 2) &&& 0xF = h.samplingFrequencyIndex :=
    samplingFrequencyIndex_code h.b2
  rw [hidx] at hsfi
  obtain ⟨script1, _, hparse⟩ := parseAdtsHeader_ok h rest script ts hsfi hs
  have hlt := frameLength_lt h
  refine ⟨script1, h.frameLength, uint16 (h.frameLength + 2 ^ 16 - 7),
    (frameLength_bits h).symm, by omega, hparse, ?_, ?_, ?_⟩
  · unfold uint16
    omega
  · intro h7
    unfold uint16
    omega
  · intro h7
    unfold uint16
    omega

/-- C11 at a concrete input: a header whose frame length field is 3. -/
theorem C11_payload_length_witness :
    ((shortLengthHeader.b2.val >>> 2) &&& 0xF ≤ 12 ∧ NoFail []) ∧
      ∃ script1 fl n,
        fl = (((shortLengthHeader.b3.val &&& 3) <<< 11) ||| (shortLengthHeader.b4.val <<< 3)) |||
          (shortLengthHeader.b5.val >>> 5) ∧
        fl ≤ 8191 ∧
        parseAdtsHeader ⟨shortLengthHeader.bytes ++ [0x01], [], 0⟩ =
          Run.ret (n, none) ⟨[0x01], script1, uint32 (0 + shortLengthHeader.duration)⟩ ∧
        (n : Int) = ((fl : Int) - 7) % 2 ^ 16 ∧
        (7 ≤ fl → n = fl - 7) ∧
        (fl < 7 → n = fl + 65529 ∧ 65529 ≤ n ∧ n ≤ 65535) :=
  ⟨⟨by decide, by decide⟩,
    C11_payload_length shortLengthHeader [0x01] [] 0 (by decide) (by decide)⟩

/-- C12: the table lookup of `parseAdtsHeader` succeeds exactly when the sampling
frequency index `(byte2 >> 2) & 0xF` is at most 12; then it yields the table
entry, which is not zero, and the call returns; for index 13, 14 or 15 the access
is out of range and the call panics, returning no frame and leaving the
accumulator as it was. -/
theorem C12_table_lookup (h : AdtsHeader) (rest : List Byte) (script : List ReadEvent)
    (ts : Nat) (hs : NoFail script) :
    ((h.b2.val >>> 2) &&& 0xF ≤ 12 ↔ (sampleRateArray[(h.b2.val >>> 2) &&& 0xF]?).isSome) ∧
      (h.b2.val >>> 2) &&& 0xF ≤ 15 ∧
      ((h.b2.val >>> 2) &&& 0xF ≤ 12 → ∃ rate script1 n,
        sampleRateArray[(h.b2.val >>> 2) &&& 0xF]? = some rate ∧
        rate = [96000, 88200, 64000, 48000, 44100, 32000, 24000, 22050, 16000, 12000, 11025,
          8000, 7350].getD ((h.b2.val >>> 2) &&& 0xF) 0 ∧
        0 < rate ∧
        parseAdtsHeader ⟨h.bytes ++ rest, script, ts⟩ =
          Run.ret (n, none) ⟨rest, script1, uint32 (ts + h.blocks * 1024 * 1000 / rate)⟩) ∧
      (12 < (h.b2.val >>> 2) &&& 0xF → ∃ script1,
        sampleRateArray[(h.b2.val >>> 2) &&& 0xF]? = none ∧
        parseAdtsHeader ⟨h.bytes ++ rest, script, ts⟩ = Run.panic ⟨rest, script1, ts⟩ ∧
        RawDataOfFrame ⟨h.bytes ++ rest, script, ts⟩ = Run.panic ⟨rest, script1, ts⟩) := by
  have hidx : (h.b2.val >>> 2) &&& 0xF = h.samplingFrequencyIndex :=
    samplingFrequencyIndex_code h.b2
  have h2 := h.b2.isLt
  rw [hidx]
  refine ⟨?_, ?_, ?_, ?_⟩
  · constructor
    · intro hle
      rw [(sampleRateArray_lookup _ hle).1]
      rfl
    · intro hsome
      by_contra hgt
      rw [sampleRateArray_none _ (by omega)] at hsome
      exact absurd hsome (by decide)
  · unfold AdtsHeader.samplingFrequencyIndex
    omega
  · intro hle
    obtain ⟨hget, hpos, _, _⟩ := sampleRateArray_lookup _ hle
    obtain ⟨script1, _, hparse⟩ := parseAdtsHeader_ok h rest script ts hle hs
    exact ⟨_, script1, _, hget, rfl, hpos, hparse⟩
  · intro hgt
    obtain ⟨script1, _, hparse⟩ := parseAdtsHeader_panic h rest script ts (by omega) hs
    refine ⟨script1, sampleRateArray_none _ (by omega), hparse, ?_⟩
    unfold RawDataOfFrame
    rw [hparse]

/-- C12 at a concrete input: a header with sampling frequency index 13 read from
accumulator 5. -/
theorem C12_table_lookup_witness :
    NoFail [ReadEvent.deliver 2] ∧
      ∃ script1,
        sampleRateArray[(badIndexHeader.b2.val >>> 2) &&& 0xF]? = none ∧
        parseAdtsHeader ⟨badIndexHeader.bytes ++ [0x01], [ReadEvent.deliver 2], 5⟩ =
          Run.panic ⟨[0x01], script1, 5⟩ ∧
        RawDataOfFrame ⟨badIndexHeader.bytes ++ [0x01], [ReadEvent.deliver 2], 5⟩ =
          Run.panic ⟨[0x01], script1, 5⟩ :=
  ⟨by decide,
    (C12_table_lookup badIndexHeader [0x01] [ReadEvent.deliver 2] 5 (by decide)).2.2.2
      (by decide)⟩

/-! ## Outcomes of `RawDataOfFrame` -/

theorem cons_of_length (r : List Byte) (n : Nat) (h : n + 1 ≤ r.length) :
    ∃ b t, r = b :: t ∧ n ≤ t.length := by
  cases r with
  | nil => simp at h
  | cons b t => exact ⟨b, t, rfl, by simpa using h⟩

theorem exists_header (r : List Byte) (h7 : 7 ≤ r.length) :
    ∃ (h : AdtsHeader) (rest : List Byte), r = h.bytes ++ rest := by
  obtain ⟨b0, r0, rfl, h0⟩ := cons_of_length r 6 h7
  obtain ⟨b1, r1, rfl, h1⟩ := cons_of_length r0 5 h0
  obtain ⟨b2, r2, rfl, h2⟩ := cons_of_length r1 4 h1
  obtain ⟨b3, r3, rfl, h3⟩ := cons_of_length r2 3 h2
  obtain ⟨b4, r4, rfl, h4⟩ := cons_of_length r3 2 h3
  obtain ⟨b5, r5, rfl, h5⟩ := cons_of_length r4 1 h4
  obtain ⟨b6, r6, rfl, _⟩ := cons_of_length r5 0 h5
  exact ⟨⟨b0, b1, b2, b3, b4, b5, b6⟩, r6, rfl⟩

theorem RawDataOfFrame_eraseScript (h : AdtsHeader) (rest : List Byte)
    (script : List ReadEvent) (ts : Nat) (hs : NoFail script) :
    (RawDataOfFrame ⟨h.bytes ++ rest, script, ts⟩).eraseScript = rawDataOutcome h rest ts := by
  by_cases hsfi : 13 ≤ h.samplingFrequencyIndex
  · obtain ⟨script1, _, hparse⟩ := parseAdtsHeader_panic h rest script ts hsfi hs
    unfold RawDataOfFrame rawDataOutcome
    rw [hparse, if_pos hsfi]
    rfl
  · obtain ⟨script1, hs1, hparse⟩ :=
      parseAdtsHeader_ok h rest script ts (by omega) hs
    by_cases hlen : uint16 (h.frameLength + 2 ^ 16 - 7) ≤ rest.length
    · obtain ⟨script2, _, hloop⟩ :=
        readLoop_full (uint16 (h.frameLength + 2 ^ 16 - 7)) (uint16 (h.frameLength + 2 ^ 16 - 7))
          [] (rest.take (uint16 (h.frameLength + 2 ^ 16 - 7)))
          (rest.drop (uint16 (h.frameLength + 2 ^ 16 - 7))) script1
          (uint32 (ts + h.duration)) (Nat.le_refl _)
          (by rw [List.length_take]; omega) hs1
      rw [List.take_append_drop] at hloop
      unfold RawDataOfFrame rawDataOutcome
      rw [hparse, if_neg hsfi, if_pos hlen]
      simp only [hloop, audioTagHeader_eq, List.nil_append, List.cons_append,
        List.singleton_append, Run.eraseScript]
    · obtain ⟨script2, _, hloop⟩ :=
        readLoop_short (uint16 (h.frameLength + 2 ^ 16 - 7))
          (uint16 (h.frameLength + 2 ^ 16 - 7)) [] rest script1
          (uint32 (ts + h.duration)) (Nat.le_refl _) (by omega) hs1
      unfold RawDataOfFrame rawDataOutcome
      rw [hparse, if_neg hsfi, if_neg hlen]
      simp only [hloop, List.nil_append, Run.eraseScript]

/-- C13, as the code has it: on a reader with at least 7 unread bytes on which
no read fails with an I/O error, `AudioSpecificConfig` returns its 4 bytes and
leaves the unread input and the accumulator as they were, and a following
`RawDataOfFrame` returns what it would have returned without the call, leaving
the same unread input and accumulator.  Under every script, failures included,
the reader the call leaves (whether it returns or panics) has the same unread
input and the same accumulator as before. -/
theorem C13_config_keeps_reader (aac : AACReader) (h7 : 7 ≤ aac.r.length)
    (hs : NoFail aac.script) :
    (∃ out aac1, AudioSpecificConfig aac = Run.ret out aac1 ∧ out.length = 4 ∧
        aac1.r = aac.r ∧ GetTimestampOfFrame aac1 = GetTimestampOfFrame aac ∧
        (RawDataOfFrame aac1).eraseScript = (RawDataOfFrame aac).eraseScript) ∧
      (∀ (script2 : List ReadEvent) (aac2 : AACReader),
        ((∃ out2, AudioSpecificConfig ⟨aac.r, script2, aac.ts⟩ = Run.ret out2 aac2) ∨
          AudioSpecificConfig ⟨aac.r, script2, aac.ts⟩ = Run.panic aac2) →
        aac2.r = aac.r ∧ GetTimestampOfFrame aac2 = GetTimestampOfFrame aac) := by
  obtain ⟨r, script, ts⟩ := aac
  obtain ⟨h, rest, hr⟩ := exists_header r h7
  subst hr
  refine ⟨?_, ?_⟩
  · obtain ⟨script1, hs1, hasc⟩ := AudioSpecificConfig_header h rest script ts hs
    refine ⟨_, _, hasc, rfl, rfl, rfl, ?_⟩
    rw [RawDataOfFrame_eraseScript h rest script1 ts hs1,
      RawDataOfFrame_eraseScript h rest script ts hs]
  · intro script2 aac2 hout
    obtain ⟨a1, hr1, hts1, hcase⟩ := AudioSpecificConfig_state ⟨h.bytes ++ rest, script2, ts⟩
    have heq : aac2 = a1 := by
      rcases hout with ⟨out2, h2⟩ | h2 <;> rcases hcase with ⟨out1, h1⟩ | h1
      · rw [h2] at h1
        simp only [Run.ret.injEq] at h1
        exact h1.2
      · rw [h2] at h1
        exact Run.noConfusion h1
      · rw [h2] at h1
        exact Run.noConfusion h1
      · rw [h2] at h1
        simp only [Run.panic.injEq] at h1
        exact h1
    rw [heq]
    exact ⟨hr1, hts1⟩

/-- C13 at a concrete input: a frame followed by three more bytes, the first
read delivering two bytes. -/
theorem C13_config_keeps_reader_witness :
    (7 ≤ (AACReader.mk (frameA.bytes ++ [0x07, 0x08, 0x09]) [ReadEvent.deliver 2] 0).r.length ∧
        NoFail (AACReader.mk (frameA.bytes ++ [0x07, 0x08, 0x09]) [ReadEvent.deliver 2] 0).script) ∧
      ∃ out aac1,
        AudioSpecificConfig ⟨frameA.bytes ++ [0x07, 0x08, 0x09], [ReadEvent.deliver 2], 0⟩ =
          Run.ret out aac1 ∧
        out.length = 4 ∧
        aac1.r = (AACReader.mk (frameA.bytes ++ [0x07, 0x08, 0x09]) [ReadEvent.deliver 2] 0).r ∧
        GetTimestampOfFrame aac1 =
          GetTimestampOfFrame ⟨frameA.bytes ++ [0x07, 0x08, 0x09], [ReadEvent.deliver 2], 0⟩ ∧
        (RawDataOfFrame aac1).eraseScript =
          (RawDataOfFrame
            ⟨frameA.bytes ++ [0x07, 0x08, 0x09], [ReadEvent.deliver 2], 0⟩).eraseScript :=
  ⟨⟨by decide, by decide⟩,
    (C13_config_keeps_reader ⟨frameA.bytes ++ [0x07, 0x08, 0x09], [ReadEvent.deliver 2], 0⟩
      (by decide) (by decide)).1⟩

/-- C13 fails as stated: with 9 bytes unread, when the second read of the peek
fails with an I/O error, `AudioSpecificConfig` drops that error and returns its
4 bytes; the following `RawDataOfFrame` then returns the frame, whereas without
the call it returns the I/O error. -/
theorem C13_counterexample :
    7 ≤ frameA.bytes.length ∧
      AudioSpecificConfig ⟨frameA.bytes, [ReadEvent.deliver 4, ReadEvent.fail], 0⟩ =
        Run.ret [0xAF, 0x00, 0x0A, 0x10] ⟨frameA.bytes, [], 0⟩ ∧
      RawDataOfFrame ⟨frameA.bytes, [], 0⟩ =
        Run.ret ([0xAF, 0x01, 0x01, 0x02], none) ⟨[], [], 23⟩ ∧
      RawDataOfFrame ⟨frameA.bytes, [ReadEvent.deliver 4, ReadEvent.fail], 0⟩ =
        Run.ret ([], some Error.IOFailure) ⟨[0x01, 0x20, 0xFC, 0x01, 0x02], [], 0⟩ := by
  decide

/-- C14: for every ADTS header at the front of the stream, when no read fails
with an I/O error, `AudioSpecificConfig` returns exactly 4 bytes: the
sound-format byte 0xAF (AAC, 44 kHz, 16-bit, stereo), the marker 0x00 and a
big-endian 16-bit word whose bits 10..7 are the sampling frequency index
`(byte2 >> 2) & 0xF` and whose 3 low bits are 0; and under every script,
whenever it returns, it returns these 4 bytes. -/
theorem C14_config_layout (h : AdtsHeader) (rest : List Byte) (script : List ReadEvent)
    (ts : Nat) (hs : NoFail script) :
    ∃ (hi lo : Byte) (script1 : List ReadEvent),
      AudioSpecificConfig ⟨h.bytes ++ rest, script, ts⟩ =
        Run.ret [0xAF, 0x00, hi, lo] ⟨h.bytes ++ rest, script1, ts⟩ ∧
      ((hi.val * 256 + lo.val) >>> 7) &&& 0xF = (h.b2.val >>> 2) &&& 0xF ∧
      (hi.val * 256 + lo.val) &&& 7 = 0 ∧
      ((0xAF : Byte).val = AAC * 16 + SoundRate44100Hz * 4 + SoundSize16BitSamples * 2 +
        SoundTypeStereo) ∧
      (∀ (script2 : List ReadEvent) (out : List Byte) (aac2 : AACReader),
        AudioSpecificConfig ⟨h.bytes ++ rest, script2, ts⟩ = Run.ret out aac2 →
          out = [0xAF, 0x00, hi, lo]) := by
  have hlt := packedWord_lt h
  have h2 := h.b2.isLt
  have h3 := h.b3.isLt
  have hc : h.b2.val % 2 ||| h.b3.val / 64 < 4 := or_low_le _ _ (by omega) (by omega)
  have hw : (byte (packedWord h / 256)).val * 256 + (byte (packedWord h)).val = packedWord h := by
    rw [byte_val, byte_val]
    omega
  obtain ⟨script1, _, hasc⟩ := AudioSpecificConfig_header h rest script ts hs
  refine ⟨byte (packedWord h / 256), byte (packedWord h), script1, hasc, ?_, ?_, by decide,
    fun script2 out aac2 hret => AudioSpecificConfig_returns h rest script2 ts out aac2 hret⟩
  · rw [hw, samplingFrequencyIndex_code, Nat.shiftRight_eq_div_pow]
    have : packedWord h / 2 ^ 7 &&& 0xF = packedWord h / 2 ^ 7 % 2 ^ 4 :=
      Nat.and_pow_two_sub_one_eq_mod _ 4
    rw [this]
    unfold packedWord AdtsHeader.profile AdtsHeader.samplingFrequencyIndex
    omega
  · rw [hw]
    have : packedWord h &&& 7 = packedWord h % 2 ^ 3 := Nat.and_pow_two_sub_one_eq_mod _ 3
    rw [this]
    unfold packedWord AdtsHeader.profile AdtsHeader.samplingFrequencyIndex
    omega

/-- C14 at a concrete input: the 96000 Hz header, peeked in reads of 3 and 5
bytes. -/
theorem C14_config_layout_witness :
    NoFail [ReadEvent.deliver 3, ReadEvent.deliver 5] ∧
      ∃ (hi lo : Byte) (script1 : List ReadEvent),
        AudioSpecificConfig
            ⟨fastHeader.bytes ++ [0x01, 0x02], [ReadEvent.deliver 3, ReadEvent.deliver 5], 0⟩ =
          Run.ret [0xAF, 0x00, hi, lo] ⟨fastHeader.bytes ++ [0x01, 0x02], script1, 0⟩ ∧
        ((hi.val * 256 + lo.val) >>> 7) &&& 0xF = (fastHeader.b2.val >>> 2) &&& 0xF ∧
        (hi.val * 256 + lo.val) &&& 7 = 0 ∧
        ((0xAF : Byte).val = AAC * 16 + SoundRate44100Hz * 4 + SoundSize16BitSamples * 2 +
          SoundTypeStereo) ∧
        (∀ (script2 : List ReadEvent) (out : List Byte) (aac2 : AACReader),
          AudioSpecificConfig ⟨fastHeader.bytes ++ [0x01, 0x02], script2, 0⟩ =
              Run.ret out aac2 →
            out = [0xAF, 0x00, hi, lo]) :=
  ⟨by decide,
    C14_config_layout fastHeader [0x01, 0x02] [ReadEvent.deliver 3, ReadEvent.deliver 5] 0
      (by decide)⟩

/-! ## Case analysis of a call under every script -/

theorem readLoop_fuel (remain : Nat) (acc : List Byte) (aac : AACReader) :
    readLoop remain remain acc aac ≠ LoopResult.stuck := by
  intro h
  have := (readLoop_inv remain remain acc aac).2.2 h
  omega

theorem parseAdtsHeader_cases (aac : AACReader) :
    (∃ e data aac1, readLoop 7 7 [] aac = LoopResult.failed e data aac1 ∧ data.length ≤ 6 ∧
        aac1.ts = aac.ts ∧ parseAdtsHeader aac = Run.ret (0, some e) aac1) ∨
      (∃ (h : AdtsHeader) (aac0 : AACReader),
        readLoop 7 7 [] aac = LoopResult.done h.bytes aac0 ∧ aac.r = h.bytes ++ aac0.r ∧
        aac0.ts = aac.ts ∧
        parseAdtsHeader aac =
          if h.samplingFrequencyIndex ≤ 12 then
            Run.ret (uint16 (h.frameLength + 2 ^ 16 - 7), none)
              { aac0 with ts := uint32 (aac.ts + h.duration) }
          else Run.panic aac0) := by
  cases hl : readLoop 7 7 [] aac with
  | stuck => exact absurd hl (readLoop_fuel 7 [] aac)
  | failed e data aac1 =>
    obtain ⟨k, hk, _, hdata, _, hts⟩ := (readLoop_inv 7 7 [] aac).2.1 e data aac1 hl
    refine Or.inl ⟨e, data, aac1, rfl, ?_, hts, ?_⟩
    · rw [hdata, List.nil_append, List.length_take]
      omega
    · unfold parseAdtsHeader
      rw [hl]
  | done adts aac0 =>
    obtain ⟨h7, hadts, hr0, hts⟩ := (readLoop_inv 7 7 [] aac).1 adts aac0 hl
    obtain ⟨h, rest, hr⟩ := exists_header aac.r h7
    have htake : aac.r.take 7 = h.bytes := by rw [hr]; rfl
    have hdrop : aac.r.drop 7 = rest := by rw [hr]; rfl
    rw [List.nil_append, htake] at hadts
    rw [hdrop] at hr0
    subst hadts
    refine Or.inr ⟨h, aac0, rfl, by rw [hr, hr0], hts, ?_⟩
    have hidx : (h.b2.val >>> 2) &&& 0x0f = h.samplingFrequencyIndex :=
      samplingFrequencyIndex_code h.b2
    unfold parseAdtsHeader
    rw [hl]
    simp only [AdtsHeader.bytes, List.getElem?_cons_succ, List.getElem?_cons_zero]
    rw [hidx]
    by_cases hsfi : h.samplingFrequencyIndex ≤ 12
    · obtain ⟨hget, _, hle, _⟩ := sampleRateArray_lookup h.samplingFrequencyIndex hsfi
      rw [hget, if_pos hsfi]
      simp only [frameLength_code, duration_code h.b6 _ hle, hts]
      rfl
    · rw [sampleRateArray_none _ (by omega), if_neg hsfi]

theorem RawDataOfFrame_cases (aac : AACReader) :
    (∃ e data aac1, readLoop 7 7 [] aac = LoopResult.failed e data aac1 ∧ data.length ≤ 6 ∧
        aac1.ts = aac.ts ∧ RawDataOfFrame aac = Run.ret ([], some e) aac1) ∨
      (∃ (h : AdtsHeader) (aac0 : AACReader),
        readLoop 7 7 [] aac = LoopResult.done h.bytes aac0 ∧ aac.r = h.bytes ++ aac0.r ∧
        13 ≤ h.samplingFrequencyIndex ∧ aac0.ts = aac.ts ∧
        RawDataOfFrame aac = Run.panic aac0) ∨
      (∃ (h : AdtsHeader) (aac0 : AACReader) (e : Error) (data : List Byte) (aac2 : AACReader)
          (k : Nat),
        readLoop 7 7 [] aac = LoopResult.done h.bytes aac0 ∧ aac.r = h.bytes ++ aac0.r ∧
        h.samplingFrequencyIndex ≤ 12 ∧
        readLoop (uint16 (h.frameLength + 2 ^ 16 - 7)) (uint16 (h.frameLength + 2 ^ 16 - 7)) []
          { aac0 with ts := uint32 (aac.ts + h.duration) } = LoopResult.failed e data aac2 ∧
        k < uint16 (h.frameLength + 2 ^ 16 - 7) ∧ k ≤ aac0.r.length ∧ data = aac0.r.take k ∧
        aac2.ts = uint32 (aac.ts + h.duration) ∧
        RawDataOfFrame aac = Run.ret (data, some e) aac2) ∨
      (∃ (h : AdtsHeader) (aac0 : AACReader) (data : List Byte) (aac2 : AACReader),
        readLoop 7 7 [] aac = LoopResult.done h.bytes aac0 ∧ aac.r = h.bytes ++ aac0.r ∧
        h.samplingFrequencyIndex ≤ 12 ∧
        uint16 (h.frameLength + 2 ^ 16 - 7) ≤ aac0.r.length ∧
        data = aac0.r.take (uint16 (h.frameLength + 2 ^ 16 - 7)) ∧
        aac2.r = aac0.r.drop (uint16 (h.frameLength + 2 ^ 16 - 7)) ∧
        aac2.ts = uint32 (aac.ts + h.duration) ∧
        RawDataOfFrame aac = Run.ret (0xAF :: 0x01 :: data, none) aac2) := by
  rcases parseAdtsHeader_cases aac with ⟨e, data, aac1, hl, hlen, hts, hparse⟩ |
    ⟨h, aac0, hl, hr, hts, hparse⟩
  · refine Or.inl ⟨e, data, aac1, hl, hlen, hts, ?_⟩
    unfold RawDataOfFrame
    rw [hparse]
  · by_cases hsfi : h.samplingFrequencyIndex ≤ 12
    · rw [if_pos hsfi] at hparse
      cases hp : readLoop (uint16 (h.frameLength + 2 ^ 16 - 7))
          (uint16 (h.frameLength + 2 ^ 16 - 7)) []
          { aac0 with ts := uint32 (aac.ts + h.duration) } with
      | stuck => exact absurd hp (readLoop_fuel _ [] _)
      | failed e data aac2 =>
        obtain ⟨k, hk, hkl, hdata, _, hts2⟩ := (readLoop_inv _ _ [] _).2.1 e data aac2 hp
        refine Or.inr (Or.inr (Or.inl ⟨h, aac0, e, data, aac2, k, hl, hr, hsfi, hp, hk, hkl,
          by rw [hdata, List.nil_append], hts2, ?_⟩))
        unfold RawDataOfFrame
        rw [hparse]
        simp only [hp]
      | done data aac2 =>
        obtain ⟨hle, hdata, hr2, hts2⟩ := (readLoop_inv _ _ [] _).1 data aac2 hp
        refine Or.inr (Or.inr (Or.inr ⟨h, aac0, data, aac2, hl, hr, hsfi, hle,
          by rw [hdata, List.nil_append], hr2, hts2, ?_⟩))
        unfold RawDataOfFrame
        rw [hparse]
        simp only [hp, audioTagHeader_eq, List.nil_append, List.cons_append,
          List.singleton_append]
    · rw [if_neg hsfi] at hparse
      refine Or.inr (Or.inl ⟨h, aac0, hl, hr, by omega, hts, ?_⟩)
      unfold RawDataOfFrame
      rw [hparse]

theorem header_inj (h1 h2 : AdtsHeader) (r1 r2 : List Byte)
    (h : h1.bytes ++ r1 = h2.bytes ++ r2) : h1 = h2 ∧ r1 = r2 := by
  obtain ⟨a0, a1, a2, a3, a4, a5, a6⟩ := h1
  obtain ⟨c0, c1, c2, c3, c4, c5, c6⟩ := h2
  simp only [AdtsHeader.bytes, List.cons_append, List.nil_append, List.cons.injEq] at h
  obtain ⟨e0, e1, e2, e3, e4, e5, e6, er⟩ := h
  subst e0 e1 e2 e3 e4 e5 e6
  exact ⟨rfl, er⟩

/-- C15: when the stream holds a complete header (sampling frequency index at
most 12, frame length at least 7) followed by fewer bytes than
`frameLength - 7`, `RawDataOfFrame` returns `io.EOF` together with exactly the
payload bytes it has read, without the `AF 01` bytes in front; under every
script it returns no frame without error, and what it returns with an error is
an initial piece of the bytes after the header. -/
theorem C15_short_payload (h : AdtsHeader) (rest : List Byte) (script : List ReadEvent)
    (ts : Nat) (hsfi : h.samplingFrequencyIndex ≤ 12) (h7 : 7 ≤ h.frameLength)
    (hshort : rest.length < h.frameLength - 7) :
    (NoFail script → ∃ script1,
        RawDataOfFrame ⟨h.bytes ++ rest, script, ts⟩ =
          Run.ret (rest, some Error.EOF) ⟨[], script1, uint32 (ts + h.duration)⟩) ∧
      (∀ out aac1, RawDataOfFrame ⟨h.bytes ++ rest, script, ts⟩ ≠ Run.ret (out, none) aac1) ∧
      (∀ out e aac1, RawDataOfFrame ⟨h.bytes ++ rest, script, ts⟩ = Run.ret (out, some e) aac1 →
        out <+: rest) := by
  have hlt := frameLength_lt h
  have hraw : uint16 (h.frameLength + 2 ^ 16 - 7) = h.frameLength - 7 := by
    unfold uint16
    omega
  refine ⟨?_, ?_, ?_⟩
  · intro hs
    obtain ⟨script1, hs1, hparse⟩ := parseAdtsHeader_ok h rest script ts hsfi hs
    obtain ⟨script2, _, hloop⟩ :=
      readLoop_short (h.frameLength - 7) (h.frameLength - 7) [] rest script1
        (uint32 (ts + h.duration)) (Nat.le_refl _) hshort hs1
    refine ⟨script2, ?_⟩
    unfold RawDataOfFrame
    rw [hparse, hraw]
    simp only [hloop, List.nil_append]
  · intro out aac1 heq
    rcases RawDataOfFrame_cases ⟨h.bytes ++ rest, script, ts⟩ with
      ⟨e, data, a1, _, _, _, hr⟩ | ⟨g, a0, _, _, _, _, hr⟩ |
      ⟨g, a0, e, data, a2, k, _, _, _, _, _, _, _, _, hr⟩ |
      ⟨g, a0, data, a2, _, hsplit, _, hle, _, _, _, hr⟩
    · rw [hr] at heq
      simp only [Run.ret.injEq, Prod.mk.injEq] at heq
      exact absurd heq.1.2 (by simp)
    · rw [hr] at heq
      exact Run.noConfusion heq
    · rw [hr] at heq
      simp only [Run.ret.injEq, Prod.mk.injEq] at heq
      exact absurd heq.1.2 (by simp)
    · obtain ⟨hg, hrest⟩ := header_inj h g rest a0.r hsplit
      subst hg
      rw [← hrest, hraw] at hle
      omega
  · intro out e aac1 heq
    rcases RawDataOfFrame_cases ⟨h.bytes ++ rest, script, ts⟩ with
      ⟨e2, data, a1, _, _, _, hr⟩ | ⟨g, a0, _, _, _, _, hr⟩ |
      ⟨g, a0, e2, data, a2, k, _, hsplit, _, _, _, _, hdata, _, hr⟩ |
      ⟨g, a0, data, a2, _, _, _, _, _, _, _, hr⟩
    · rw [hr] at heq
      simp only [Run.ret.injEq, Prod.mk.injEq] at heq
      rw [← heq.1.1]
      exact List.nil_prefix
    · rw [hr] at heq
      exact Run.noConfusion heq
    · obtain ⟨_, hrest⟩ := header_inj h g rest a0.r hsplit
      rw [hr] at heq
      simp only [Run.ret.injEq, Prod.mk.injEq] at heq
      rw [← heq.1.1, hdata, ← hrest]
      exact List.take_prefix _ _
    · rw [hr] at heq
      simp only [Run.ret.injEq, Prod.mk.injEq] at heq
      exact absurd heq.1.2 (by simp)

/-- C15 at a concrete input: a header announcing two payload bytes followed by
one byte. -/
theorem C15_short_payload_witness :
    (lcHeader.samplingFrequencyIndex ≤ 12 ∧ 7 ≤ lcHeader.frameLength ∧
        ([0x01] : List Byte).length < lcHeader.frameLength - 7 ∧ NoFail []) ∧
      ∃ script1,
        RawDataOfFrame ⟨lcHeader.bytes ++ [0x01], [], 0⟩ =
          Run.ret ([0x01], some Error.EOF) ⟨[], script1, uint32 (0 + lcHeader.duration)⟩ :=
  ⟨⟨by decide, by decide, by decide, by decide⟩,
    (C15_short_payload lcHeader [0x01] [] 0 (by decide) (by decide) (by decide)).1
      (by decide)⟩

/-! ## Header flags, tag decoding, sizes and errors -/

theorem nat_lor_one (m : Nat) : m ||| 1 = 1 ↔ m = 0 ∨ m = 1 := by
  constructor
  · intro h
    have h2 : (m ||| 1) / 2 = m / 2 ||| 1 / 2 := Nat.or_div_two
    rw [h] at h2
    simp at h2
    omega
  · rintro (rfl | rfl) <;> rfl

theorem nat_lor_two (m : Nat) : m ||| 2 ≠ 1 := by
  intro h
  have h2 : (m ||| 2) / 2 = m / 2 ||| 2 / 2 := Nat.or_div_two
  rw [h] at h2
  have h3 : (m / 2 ||| 2 / 2) % 2 = 1 := Nat.or_mod_two_eq_one.mpr (Or.inr rfl)
  rw [← h2] at h3
  exact absurd h3 (by decide)

theorem int_lor_audio (has : Int) : Int.lor has Audio = 1 ↔ has = 0 ∨ has = 1 := by
  cases has with
  | ofNat m =>
    have e : Int.lor (Int.ofNat m) Audio = ((m ||| 1 : Nat) : Int) := rfl
    rw [e]
    constructor
    · intro h
      have h1 : m ||| 1 = 1 := by exact_mod_cast h
      rcases (nat_lor_one m).mp h1 with h0 | h0
      · left; rw [h0]; rfl
      · right; rw [h0]; rfl
    · intro h
      have hm : m = 0 ∨ m = 1 := by
        rcases h with h | h
        · left
          have h0 : (m : Int) = 0 := h
          omega
        · right
          have h0 : (m : Int) = 1 := h
          omega
      have := (nat_lor_one m).mpr hm
      exact_mod_cast this
  | negSucc m =>
    have e : Int.lor (Int.negSucc m) Audio = Int.negSucc (Nat.ldiff m 1) := rfl
    rw [e]
    constructor
    · intro h; exact absurd h (by simp [Int.negSucc_eq]; omega)
    · intro h; rcases h with h | h <;> exact absurd h (by simp [Int.negSucc_eq]; omega)

theorem int_lor_video (has : Int) : Int.lor has Video ≠ 1 := by
  cases has with
  | ofNat m =>
    have e : Int.lor (Int.ofNat m) Video = ((m ||| 2 : Nat) : Int) := rfl
    rw [e]
    intro h
    have h1 : m ||| 2 = 1 := by exact_mod_cast h
    exact nat_lor_two m h1
  | negSucc m =>
    have e : Int.lor (Int.negSucc m) Video = Int.negSucc (Nat.ldiff m 2) := rfl
    rw [e]
    intro h; exact absurd h (by simp [Int.negSucc_eq]; omega)

/-- C16: for every value of `has`, `WriteHeader` writes exactly 13 bytes:
`46 4C 56`, the version `01`, one flags byte, the header size `00 00 00 09` and
the first previous-tag-size `00 00 00 00`.  The flags byte always has the audio
bit 0x04: it is 0x04 when `has` is 0 or `Audio` (`has | 1 == 1`) and 0x05 for
every other value; the test `has | Video == 1` of the video-only branch never
holds. -/
theorem C16_writeHeader_bytes (flv : FLV) (has : Int) :
    (WriteHeader flv has).w =
        flv.w ++ [0x46, 0x4C, 0x56, 0x01, if has = 0 ∨ has = Audio then 0x04 else 0x05,
          0x00, 0x00, 0x00, 0x09, 0x00, 0x00, 0x00, 0x00] ∧
      (WriteHeader flv has).w.length = flv.w.length + 13 ∧
      (Int.lor has 1 = 1 ↔ has = 0 ∨ has = Audio) ∧
      Int.lor has Video ≠ 1 ∧
      ((if has = 0 ∨ has = Audio then (0x04 : Byte) else 0x05).val &&& 0x04 = 0x04) := by
  have hA : Audio = 1 := rfl
  have hbytes : (WriteHeader flv has).w =
      flv.w ++ [0x46, 0x4C, 0x56, 0x01, if has = 0 ∨ has = Audio then 0x04 else 0x05,
        0x00, 0x00, 0x00, 0x09, 0x00, 0x00, 0x00, 0x00] := by
    have p9 : PutUint32 9 = [0x00, 0x00, 0x00, 0x09] := by decide
    have p0 : PutUint32 0 = [0x00, 0x00, 0x00, 0x00] := by decide
    unfold WriteHeader
    by_cases hc : has = 0 ∨ has = Audio
    · have h1 : Int.lor has Audio = 1 := (int_lor_audio has).mpr (by rw [hA] at hc; exact hc)
      simp only [h1, if_true, hc, p9, p0, List.append_assoc, List.cons_append, List.nil_append]
    · have h1 : ¬ Int.lor has Audio = 1 := fun h => hc (by rw [hA]; exact (int_lor_audio has).mp h)
      simp only [h1, if_false, hc, int_lor_video has, p9, p0, List.append_assoc,
        List.cons_append, List.nil_append]
  refine ⟨hbytes, ?_, ?_, int_lor_video has, ?_⟩
  · rw [hbytes]
    simp
  · rw [hA]
    exact int_lor_audio has
  · by_cases hc : has = 0 ∨ has = Audio
    · rw [if_pos hc]; decide
    · rw [if_neg hc]; decide

theorem bigEndian_three (n : Nat) :
    bigEndian 3 n = [byte (n / 256 / 256), byte (n / 256), byte n] := rfl

theorem bigEndian_four (n : Nat) :
    bigEndian 4 n = [byte (n / 256 / 256 / 256), byte (n / 256 / 256), byte (n / 256), byte n] :=
  rfl

theorem byteOfInt_val (t : Int) (h0 : 0 ≤ t) (h1 : t < 256) : ((byteOfInt t).val : Int) = t := by
  unfold byteOfInt
  rw [byte_val]
  omega

theorem decodeTag_writeTag (c : TagCall) (flv : FLV)
    (ht0 : 0 ≤ c.t) (ht1 : c.t < 256) (hd : c.d.length < 2 ^ 24) (hts : c.ts < 2 ^ 32) :
    ∃ b bs, (WriteTag flv c.t c.d c.ts).w = flv.w ++ b :: bs ∧
      ∀ rest, decodeTag (b :: (bs ++ rest)) = some (c, rest) := by
  refine ⟨byteOfInt c.t, bigEndian 3 c.d.length ++ bigEndian 3 (c.ts % 2 ^ 24) ++
    [byte (c.ts / 2 ^ 24)] ++ [0, 0, 0] ++ c.d ++ bigEndian 4 (11 + c.d.length), ?_, ?_⟩
  · rw [writeTag_bytes flv c.t c.d c.ts hd]
    simp only [List.singleton_append, List.cons_append, List.append_assoc, List.nil_append]
  intro rest
  have hsize : fromBigEndian [byte (c.d.length / 256 / 256), byte (c.d.length / 256),
      byte c.d.length] = c.d.length := fromBigEndian_bigEndian 3 _ (by omega)
  have hlow : fromBigEndian [byte (c.ts % 2 ^ 24 / 256 / 256), byte (c.ts % 2 ^ 24 / 256),
      byte (c.ts % 2 ^ 24)] = c.ts % 2 ^ 24 := fromBigEndian_bigEndian 3 _ (by omega)
  have htrail : fromBigEndian [byte ((11 + c.d.length) / 256 / 256 / 256),
      byte ((11 + c.d.length) / 256 / 256), byte ((11 + c.d.length) / 256),
      byte (11 + c.d.length)] = 11 + c.d.length := fromBigEndian_bigEndian 4 _ (by omega)
  have hhi : (byte (c.ts / 2 ^ 24)).val * 2 ^ 24 + c.ts % 2 ^ 24 = c.ts := by
    rw [byte_val]
    omega
  have hdrop : List.drop c.d.length (c.d ++ (bigEndian 4 (11 + c.d.length) ++ rest)) =
      bigEndian 4 (11 + c.d.length) ++ rest := List.drop_left _ _
  have htake : List.take c.d.length (c.d ++ (bigEndian 4 (11 + c.d.length) ++ rest)) = c.d :=
    List.take_left _ _
  simp only [bigEndian_three, List.cons_append, List.nil_append, List.append_assoc,
    decodeTag, hsize, hlow]
  rw [if_pos (by simp), hdrop, htake]
  simp only [bigEndian_four, List.cons_append, List.nil_append, htrail, if_true, hhi]
  congr 2
  obtain ⟨t, d, ts⟩ := c
  simp only [TagCall.mk.injEq, and_true]
  exact byteOfInt_val t ht0 ht1

theorem decodeTags_writeTags : ∀ (cs : List TagCall) (flv : FLV),
    (∀ c ∈ cs, 0 ≤ c.t ∧ c.t < 256 ∧ c.d.length < 2 ^ 24 ∧ c.ts < 2 ^ 32) →
    ∃ bs, (writeTags flv cs).w = flv.w ++ bs ∧ decodeTags cs.length bs = some cs := by
  intro cs
  induction cs with
  | nil =>
    intro flv _
    exact ⟨[], by simp [writeTags], rfl⟩
  | cons c cs ih =>
    intro flv hall
    obtain ⟨ht0, ht1, hd, hts⟩ := hall c (List.mem_cons_self _ _)
    obtain ⟨b, bs, hw, hdec⟩ := decodeTag_writeTag c flv ht0 ht1 hd hts
    obtain ⟨bs2, hw2, hdec2⟩ := ih (WriteTag flv c.t c.d c.ts)
      (fun d hd => hall d (List.mem_cons_of_mem _ hd))
    refine ⟨b :: (bs ++ bs2), ?_, ?_⟩
    · have : writeTags flv (c :: cs) = writeTags (WriteTag flv c.t c.d c.ts) cs := rfl
      rw [this, hw2, hw]
      simp
    · rw [List.length_cons, decodeTags, hdec bs2]
      simp only [hdec2, Option.map_some']

/-- C17: `WriteTag` can be decoded without loss: for every list of tags with
type in 0..255, data shorter than 2^24 and 32-bit timestamp, parsing the bytes
written by the successive `WriteTag` calls with the FLV tag layout recovers the
same list, uses up all bytes and finds every previous-tag-size equal to
`11 + size`. -/
theorem C17_tags_decodable (cs : List TagCall)
    (hall : ∀ c ∈ cs, 0 ≤ c.t ∧ c.t < 256 ∧ c.d.length < 2 ^ 24 ∧ c.ts < 2 ^ 32) :
    decodeTags cs.length (writeTags ⟨[]⟩ cs).w = some cs := by
  obtain ⟨bs, hw, hdec⟩ := decodeTags_writeTags cs ⟨[]⟩ hall
  rw [hw, List.nil_append, hdec]

/-- C17 at a concrete input: an audio tag with four data bytes and an empty
video tag with a large timestamp. -/
theorem C17_tags_decodable_witness :
    (∀ c ∈ [TagCall.mk AudioTag [0xAF, 0x00, 0x0A, 0x10] 0,
          TagCall.mk VideoTag [] 0xA1B2C3D4],
        0 ≤ c.t ∧ c.t < 256 ∧ c.d.length < 2 ^ 24 ∧ c.ts < 2 ^ 32) ∧
      decodeTags [TagCall.mk AudioTag [0xAF, 0x00, 0x0A, 0x10] 0,
          TagCall.mk VideoTag [] 0xA1B2C3D4].length
        (writeTags ⟨[]⟩ [TagCall.mk AudioTag [0xAF, 0x00, 0x0A, 0x10] 0,
          TagCall.mk VideoTag [] 0xA1B2C3D4]).w =
        some [TagCall.mk AudioTag [0xAF, 0x00, 0x0A, 0x10] 0,
          TagCall.mk VideoTag [] 0xA1B2C3D4] :=
  ⟨by decide,
    C17_tags_decodable [TagCall.mk AudioTag [0xAF, 0x00, 0x0A, 0x10] 0,
      TagCall.mk VideoTag [] 0xA1B2C3D4] (by decide)⟩

/-- C18: every byte slice `RawDataOfFrame` returns without error has length
between 2 and 65537, whatever the reader holds; hence in the tag `WriteTag`
writes for it the 24-bit data size is the exact length and the 32-bit trailer
is `11 + length`, without wrap-around. -/
theorem C18_frame_size_fits (aac : AACReader) (out : List Byte) (aac1 : AACReader)
    (hret : RawDataOfFrame aac = Run.ret (out, none) aac1) :
    2 ≤ out.length ∧ out.length ≤ 65537 ∧
      ∀ (flv : FLV) (ts : Nat),
        (WriteTag flv AudioTag out ts).w =
            flv.w ++ ([byteOfInt AudioTag] ++ bigEndian 3 out.length ++
              bigEndian 3 (ts % 2 ^ 24) ++ [byte (ts / 2 ^ 24)] ++ [0, 0, 0] ++ out ++
              bigEndian 4 (11 + out.length)) ∧
          fromBigEndian (bigEndian 3 out.length) = out.length ∧
          fromBigEndian (bigEndian 4 (11 + out.length)) = 11 + out.length := by
  have hlen : 2 ≤ out.length ∧ out.length ≤ 65537 := by
    rcases RawDataOfFrame_cases aac with
      ⟨e, data, a1, _, _, _, hr⟩ | ⟨g, a0, _, _, _, _, hr⟩ |
      ⟨g, a0, e, data, a2, k, _, _, _, _, _, _, _, _, hr⟩ |
      ⟨g, a0, data, a2, _, _, _, hle, hdata, _, _, hr⟩
    · rw [hr] at hret
      simp only [Run.ret.injEq, Prod.mk.injEq] at hret
      exact absurd hret.1.2 (by simp)
    · rw [hr] at hret
      exact Run.noConfusion hret
    · rw [hr] at hret
      simp only [Run.ret.injEq, Prod.mk.injEq] at hret
      exact absurd hret.1.2 (by simp)
    · rw [hr] at hret
      simp only [Run.ret.injEq, Prod.mk.injEq] at hret
      have hu : uint16 (g.frameLength + 2 ^ 16 - 7) < 65536 := Nat.mod_lt _ (by decide)
      have hdl : data.length = uint16 (g.frameLength + 2 ^ 16 - 7) := by
        rw [hdata, List.length_take]
        omega
      rw [← hret.1.1]
      simp only [List.length_cons]
      omega
  refine ⟨hlen.1, hlen.2, ?_⟩
  intro flv ts
  exact ⟨writeTag_bytes flv AudioTag out ts (by omega),
    fromBigEndian_bigEndian 3 _ (by omega), fromBigEndian_bigEndian 4 _ (by omega)⟩

/-- C18 at a concrete input: the frame with two payload bytes. -/
theorem C18_frame_size_fits_witness :
    RawDataOfFrame ⟨frameA.bytes, [], 0⟩ = Run.ret ([0xAF, 0x01, 0x01, 0x02], none) ⟨[], [], 23⟩ ∧
      2 ≤ ([0xAF, 0x01, 0x01, 0x02] : List Byte).length ∧
      ([0xAF, 0x01, 0x01, 0x02] : List Byte).length ≤ 65537 :=
  ⟨by decide,
    (C18_frame_size_fits ⟨frameA.bytes, [], 0⟩ [0xAF, 0x01, 0x01, 0x02] ⟨[], [], 23⟩
      (by decide)).1,
    (C18_frame_size_fits ⟨frameA.bytes, [], 0⟩ [0xAF, 0x01, 0x01, 0x02] ⟨[], [], 23⟩
      (by decide)).2.1⟩

theorem duration_bounds (h : AdtsHeader) (hsfi : h.samplingFrequencyIndex ≤ 12) :
    10 ≤ h.duration ∧ h.duration ≤ 557 ∧ h.blocks * 1024 * 1000 < 2 ^ 32 := by
  obtain ⟨_, hpos, hle, hge⟩ := sampleRateArray_lookup h.samplingFrequencyIndex hsfi
  have h6 := h.b6.isLt
  unfold AdtsHeader.duration AdtsHeader.sampleRate AdtsHeader.blocks
  refine ⟨?_, ?_, by omega⟩
  · rw [Nat.le_div_iff_mul_le hpos]
    omega
  · apply Nat.le_of_lt_succ
    rw [Nat.div_lt_iff_lt_mul hpos]
    omega

/-- C19: for every header with sampling frequency index at most 12 the amount
`parseAdtsHeader` adds to the accumulator is between 10 and 557 (10 for one
block at 96000 Hz, 557 for four blocks at 7350 Hz) and the product
`blocks * 1024 * 1000` stays below 2^32; so the accumulator strictly increases
whenever it is at most `2^32 - 558` before the call, and it wraps around modulo
2^32 when the sum reaches 2^32. -/
theorem C19_step_bounds (h : AdtsHeader) (rest : List Byte) (script : List ReadEvent)
    (ts : Nat) (hsfi : h.samplingFrequencyIndex ≤ 12) (hs : NoFail script)
    (hts : ts < 2 ^ 32) :
    ∃ script1 n d,
      parseAdtsHeader ⟨h.bytes ++ rest, script, ts⟩ =
        Run.ret (n, none) ⟨rest, script1, (ts + d) % 2 ^ 32⟩ ∧
      d = h.blocks * 1024 * 1000 / h.sampleRate ∧
      10 ≤ d ∧ d ≤ 557 ∧
      h.blocks * 1024 * 1000 < 2 ^ 32 ∧
      (ts ≤ 2 ^ 32 - 558 → ts < (ts + d) % 2 ^ 32 ∧ (ts + d) % 2 ^ 32 = ts + d) ∧
      (2 ^ 32 ≤ ts + d → (ts + d) % 2 ^ 32 = ts + d - 2 ^ 32 ∧ (ts + d) % 2 ^ 32 < ts) ∧
      fastHeader.duration = 10 ∧ slowHeader.duration = 557 ∧
      parseAdtsHeader ⟨slowHeader.bytes, [], 2 ^ 32 - 557⟩ = Run.ret (2, none) ⟨[], [], 0⟩ := by
  obtain ⟨script1, _, hparse⟩ := parseAdtsHeader_ok h rest script ts hsfi hs
  obtain ⟨h10, h557, hprod⟩ := duration_bounds h hsfi
  refine ⟨script1, _, h.duration, hparse, rfl, h10, h557, hprod, ?_, ?_, by decide, by decide,
    by decide⟩
  · intro hle
    omega
  · intro hge
    omega

/-- C19 at a concrete input: a 44100 Hz header parsed from accumulator 100. -/
theorem C19_step_bounds_witness :
    (lcHeader.samplingFrequencyIndex ≤ 12 ∧ NoFail [ReadEvent.deliver 4] ∧ 100 < 2 ^ 32) ∧
      ∃ script1 n d,
        parseAdtsHeader ⟨lcHeader.bytes ++ [0x01, 0x02], [ReadEvent.deliver 4], 100⟩ =
          Run.ret (n, none) ⟨[0x01, 0x02], script1, (100 + d) % 2 ^ 32⟩ ∧
        d = lcHeader.blocks * 1024 * 1000 / lcHeader.sampleRate ∧
        10 ≤ d ∧ d ≤ 557 ∧
        lcHeader.blocks * 1024 * 1000 < 2 ^ 32 ∧
        (100 ≤ 2 ^ 32 - 558 → 100 < (100 + d) % 2 ^ 32 ∧ (100 + d) % 2 ^ 32 = 100 + d) ∧
        (2 ^ 32 ≤ 100 + d → (100 + d) % 2 ^ 32 = 100 + d - 2 ^ 32 ∧ (100 + d) % 2 ^ 32 < 100) ∧
        fastHeader.duration = 10 ∧ slowHeader.duration = 557 ∧
        parseAdtsHeader ⟨slowHeader.bytes, [], 2 ^ 32 - 557⟩ = Run.ret (2, none) ⟨[], [], 0⟩ :=
  ⟨⟨by decide, by decide, by decide⟩,
    C19_step_bounds lcHeader [0x01, 0x02] [ReadEvent.deliver 4] 100 (by decide) (by decide)
      (by decide)⟩

/-- C20: whenever `RawDataOfFrame` returns an error, either the read of the 7
header bytes failed with at most 6 bytes obtained, and then the returned slice
is empty and the accumulator is unchanged; or the header was read (sampling
frequency index at most 12) and the read of the payload failed, and then the
accumulator has already been advanced by the duration of that frame. -/
theorem C20_error_atomicity (aac : AACReader) (out : List Byte) (e : Error) (aac1 : AACReader)
    (hret : RawDataOfFrame aac = Run.ret (out, some e) aac1) :
    (∃ data, readLoop 7 7 [] aac = LoopResult.failed e data aac1 ∧ data.length ≤ 6 ∧
        out = [] ∧ GetTimestampOfFrame aac1 = GetTimestampOfFrame aac) ∨
      (∃ (h : AdtsHeader) (aac0 : AACReader),
        readLoop 7 7 [] aac = LoopResult.done h.bytes aac0 ∧
        h.samplingFrequencyIndex ≤ 12 ∧
        readLoop (uint16 (h.frameLength + 2 ^ 16 - 7)) (uint16 (h.frameLength + 2 ^ 16 - 7)) []
          { aac0 with ts := uint32 (aac.ts + h.duration) } = LoopResult.failed e out aac1 ∧
        GetTimestampOfFrame aac1 =
          (GetTimestampOfFrame aac + h.blocks * 1024 * 1000 / h.sampleRate) % 2 ^ 32) := by
  rcases RawDataOfFrame_cases aac with
    ⟨e2, data, a1, hl, hlen, hts, hr⟩ | ⟨g, a0, _, _, _, _, hr⟩ |
    ⟨g, a0, e2, data, a2, k, hl, _, hsfi, hp, _, _, _, hts, hr⟩ |
    ⟨g, a0, data, a2, _, _, _, _, _, _, _, hr⟩
  · rw [hr] at hret
    simp only [Run.ret.injEq, Prod.mk.injEq, Option.some.injEq] at hret
    obtain ⟨⟨ho, he⟩, ha⟩ := hret
    subst he ha
    exact Or.inl ⟨data, hl, hlen, ho.symm, hts⟩
  · rw [hr] at hret
    exact Run.noConfusion hret
  · rw [hr] at hret
    simp only [Run.ret.injEq, Prod.mk.injEq, Option.some.injEq] at hret
    obtain ⟨⟨ho, he⟩, ha⟩ := hret
    subst ho he ha
    exact Or.inr ⟨g, a0, hl, hsfi, hp, hts⟩
  · rw [hr] at hret
    simp only [Run.ret.injEq, Prod.mk.injEq] at hret
    exact absurd hret.1.2 (by simp)

/-- C20 at a concrete input: a header announcing two payload bytes followed by
one byte, read from accumulator 7. -/
theorem C20_error_atomicity_witness :
    RawDataOfFrame ⟨lcHeader.bytes ++ [0x01], [ReadEvent.deliver 3], 7⟩ =
        Run.ret ([0x01], some Error.EOF) ⟨[], [], 30⟩ ∧
      ((∃ data, readLoop 7 7 [] ⟨lcHeader.bytes ++ [0x01], [ReadEvent.deliver 3], 7⟩ =
            LoopResult.failed Error.EOF data ⟨[], [], 30⟩ ∧ data.length ≤ 6 ∧
          ([0x01] : List Byte) = [] ∧
          GetTimestampOfFrame ⟨[], [], 30⟩ =
            GetTimestampOfFrame ⟨lcHeader.bytes ++ [0x01], [ReadEvent.deliver 3], 7⟩) ∨
        (∃ (h : AdtsHeader) (aac0 : AACReader),
          readLoop 7 7 [] ⟨lcHeader.bytes ++ [0x01], [ReadEvent.deliver 3], 7⟩ =
            LoopResult.done h.bytes aac0 ∧
          h.samplingFrequencyIndex ≤ 12 ∧
          readLoop (uint16 (h.frameLength + 2 ^ 16 - 7)) (uint16 (h.frameLength + 2 ^ 16 - 7)) []
            { aac0 with ts := uint32 ((AACReader.mk (lcHeader.bytes ++ [0x01])
              [ReadEvent.deliver 3] 7).ts + h.duration) } =
            LoopResult.failed Error.EOF [0x01] ⟨[], [], 30⟩ ∧
          GetTimestampOfFrame ⟨[], [], 30⟩ =
            (GetTimestampOfFrame ⟨lcHeader.bytes ++ [0x01], [ReadEvent.deliver 3], 7⟩ +
              h.blocks * 1024 * 1000 / h.sampleRate) % 2 ^ 32)) :=
  ⟨by decide,
    C20_error_atomicity ⟨lcHeader.bytes ++ [0x01], [ReadEvent.deliver 3], 7⟩ [0x01] Error.EOF
      ⟨[], [], 30⟩ (by decide)⟩

end Aac2Flv
